import Mathlib

/-!
Verification of the GitSimulator simulation core.

This file gives a shallow embedding, in Lean 4, of the data model and the
algorithms of the `git_sim` package (`core/models.py`,
`simulation/conflict_detector.py`, `simulation/rebase.py`,
`simulation/merge.py`, `simulation/cherry_pick.py`, `core/diff_analyzer.py`,
`core/repository.py`, `simulation/dispatcher.py`) and proves or refutes the
specified properties of that code.

Conventions of the embedding:
* Python `dict` comprehensions (`{fc.path: fc for fc in xs}`) are modelled by
  "last entry wins" lookup over the source list; iteration over a Python
  `set` of keys is modelled by first-occurrence order (the properties proved
  about such iterations are order-insensitive, membership-style statements).
* Python exceptions are modelled by `Except` / `Option` results; the
  exception classes of `core/exceptions.py` become the constructors of
  `GitSimError`.
* The external object store (dulwich) is modelled by explicit environment
  records whose fields mirror the repository facade methods the simulators
  call; cryptographic hashing (`hashlib.sha1(...).hexdigest()`) is modelled
  by an abstract hash function supplied by the environment.
-/

set_option maxHeartbeats 1600000

namespace GitSim

/-- `ChangeType` enum of `core/models.py`. -/
inductive ChangeType where
  | ADD
  | DELETE
  | MODIFY
  | RENAME
  | COPY
  deriving DecidableEq, Repr

/-- `ConflictSeverity` enum of `core/models.py`. -/
inductive ConflictSeverity where
  | NONE
  | LIKELY
  | CERTAIN
  deriving DecidableEq, Repr

/-- `CommitInfo` dataclass of `core/models.py`. -/
structure CommitInfo where
  sha : String
  message : String
  author : String
  author_email : String
  timestamp : Nat
  parent_shas : List String
  tree_sha : String
  deriving DecidableEq, Repr

/-- Python string slicing `s[:n]`, over the character list so that it
reduces in the kernel. -/
def pyTake (s : String) (n : Nat) : String :=
  ⟨s.toList.take n⟩

/-- `CommitInfo.short_sha`: first 7 characters of the SHA. -/
def CommitInfo.short_sha (c : CommitInfo) : String :=
  pyTake c.sha 7

/-- `CommitInfo.is_merge`: more than one parent. -/
def CommitInfo.is_merge (c : CommitInfo) : Bool :=
  decide (1 < c.parent_shas.length)

/-- `CommitInfo.first_line`: the commit message up to the first newline
(`message.split("\n", 1)[0]`). -/
def CommitInfo.first_line (c : CommitInfo) : String :=
  ⟨c.message.toList.takeWhile (fun ch => ch ≠ Char.ofNat 10)⟩

/-- `DiffHunk` dataclass of `core/models.py`. -/
structure DiffHunk where
  old_start : Nat
  old_count : Nat
  new_start : Nat
  new_count : Nat
  lines : List String := []
  header : String := ""
  deriving DecidableEq, Repr

/-- `DiffHunk.old_range`: `(start, start + count)` in the old file. -/
def DiffHunk.old_range (h : DiffHunk) : Nat × Nat :=
  (h.old_start, h.old_start + h.old_count)

/-- `DiffHunk.new_range`: `(start, start + count)` in the new file. -/
def DiffHunk.new_range (h : DiffHunk) : Nat × Nat :=
  (h.new_start, h.new_start + h.new_count)

/-- `FileChange` dataclass of `core/models.py`. -/
structure FileChange where
  path : String
  change_type : ChangeType
  old_path : Option String := none
  old_mode : Option Nat := none
  new_mode : Option Nat := none
  old_sha : Option String := none
  new_sha : Option String := none
  additions : Nat := 0
  deletions : Nat := 0
  hunks : List DiffHunk := []
  deriving DecidableEq, Repr

/-- `PotentialConflict` dataclass of `core/models.py`. -/
structure PotentialConflict where
  path : String
  severity : ConflictSeverity
  description : String
  our_change : Option FileChange := none
  their_change : Option FileChange := none
  overlapping_ranges : List ((Nat × Nat) × (Nat × Nat)) := []
  deriving DecidableEq, Repr

/-- `PotentialConflict.is_certain`. -/
def PotentialConflict.is_certain (c : PotentialConflict) : Bool :=
  decide (c.severity = ConflictSeverity.CERTAIN)

/-- `RebaseStep` dataclass of `core/models.py`. -/
structure RebaseStep where
  original_sha : String
  commit_info : CommitInfo
  action : String := "pick"
  new_sha : Option String := none
  conflicts : List PotentialConflict := []
  will_be_skipped : Bool := false
  deriving DecidableEq, Repr

/-- `CommitGraph` dataclass of `core/models.py`.  The Python `dict`
`commits` is modelled as an insertion-ordered association list with
"update in place, append if new" assignment semantics. -/
structure CommitGraph where
  commits : List (String × CommitInfo) := []
  edges : List (String × String) := []
  branch_tips : List (String × String) := []
  head_sha : String := ""
  head_branch : Option String := none
  deriving DecidableEq, Repr

/-- Python `dict` assignment `d[k] = v`: replace the value at an existing
key in place, append otherwise. -/
def dictInsert {α : Type} (l : List (String × α)) (k : String) (v : α) :
    List (String × α) :=
  if l.any (fun e => e.1 = k) then
    l.map (fun e => if e.1 = k then (k, v) else e)
  else
    l ++ [(k, v)]

/-- Python `dict` lookup `d.get(k)`: the (unique, by `dictInsert`) value
bound at `k`.  For a raw association list built by comprehension the
binding written last wins, so we search the reversed list. -/
def dictGet {α : Type} (l : List (String × α)) (k : String) : Option α :=
  (l.reverse.find? (fun e => e.1 = k)).map (fun e => e.2)

/-- `CommitGraph.add_commit`. -/
def CommitGraph.add_commit (g : CommitGraph) (c : CommitInfo) : CommitGraph :=
  { g with
    commits := dictInsert g.commits c.sha c
    edges := g.edges ++ c.parent_shas.map (fun p => (c.sha, p)) }

/-- `OperationType` enum of `core/models.py`. -/
inductive OperationType where
  | REBASE
  | MERGE
  | RESET
  | CHERRY_PICK
  deriving DecidableEq, Repr

/-- `ResetMode` enum of `core/models.py`. -/
inductive ResetMode where
  | SOFT
  | MIXED
  | HARD
  deriving DecidableEq, Repr

/-- `DangerLevel` enum of `core/models.py`. -/
inductive DangerLevel where
  | LOW
  | MEDIUM
  | HIGH
  | CRITICAL
  deriving DecidableEq, Repr

/-- `SafetyInfo` dataclass of `core/models.py`. -/
structure SafetyInfo where
  danger_level : DangerLevel
  reasons : List String := []
  suggestions : List String := []
  reversible : Bool := true
  requires_force_push : Bool := false
  deriving DecidableEq, Repr

/-- `OperationStep` dataclass of `core/models.py`. -/
structure OperationStep where
  step_number : Nat
  action : String
  commit_info : Option CommitInfo := none
  original_sha : String := ""
  new_sha : String := ""
  conflicts : List PotentialConflict := []
  will_be_skipped : Bool := false
  description : String := ""
  deriving DecidableEq, Repr

/-- `SimulationResult` dataclass of `core/models.py`. -/
structure SimulationResult where
  operation_type : OperationType
  success : Bool
  before_graph : CommitGraph := {}
  after_graph : CommitGraph := {}
  conflicts : List PotentialConflict := []
  changed_files : List FileChange := []
  warnings : List String := []
  safety_info : Option SafetyInfo := none
  commits_affected : List CommitInfo := []
  commits_dropped : List CommitInfo := []
  commits_created : List CommitInfo := []
  source_ref : String := ""
  target_ref : String := ""
  merge_base_sha : String := ""
  new_head_sha : String := ""
  steps : List OperationStep := []
  deriving DecidableEq, Repr

/-- `SimulationResult.has_conflicts`. -/
def SimulationResult.has_conflicts (r : SimulationResult) : Bool :=
  decide (0 < r.conflicts.length)

/-- `SimulationResult.conflict_count`. -/
def SimulationResult.conflict_count (r : SimulationResult) : Nat :=
  r.conflicts.length

/-- `RebaseSimulation` dataclass of `core/models.py`. -/
structure RebaseSimulation where
  source_branch : String
  target_branch : String
  onto_sha : String
  merge_base_sha : String
  steps : List RebaseStep := []
  before_graph : CommitGraph := {}
  after_graph : CommitGraph := {}
  deriving DecidableEq, Repr

/-- `RebaseSimulation.has_conflicts`: any step has a conflict. -/
def RebaseSimulation.has_conflicts (s : RebaseSimulation) : Bool :=
  s.steps.any (fun step => decide (0 < step.conflicts.length))

/-- `RebaseSimulation.conflict_count`: total over all steps. -/
def RebaseSimulation.conflict_count (s : RebaseSimulation) : Nat :=
  (s.steps.map (fun step => step.conflicts.length)).sum

/-- `RebaseSimulation.skipped_commits`. -/
def RebaseSimulation.skipped_commits (s : RebaseSimulation) : List CommitInfo :=
  (s.steps.filter (fun step => step.will_be_skipped)).map (fun step => step.commit_info)

/-- `RebaseSimulation.to_simulation_result` (`core/models.py`, lines 335-363). -/
def RebaseSimulation.to_simulation_result (s : RebaseSimulation) : SimulationResult :=
  let all_conflicts := (s.steps.map (fun step => step.conflicts)).flatten
  { operation_type := OperationType.REBASE
    success := ! s.has_conflicts
    before_graph := s.before_graph
    after_graph := s.after_graph
    conflicts := all_conflicts
    commits_affected := s.steps.map (fun step => step.commit_info)
    commits_dropped := s.skipped_commits
    source_ref := s.source_branch
    target_ref := s.target_branch
    merge_base_sha := s.merge_base_sha
    new_head_sha := (match s.steps.getLast? with
      | some st => st.new_sha.getD ""
      | none => "")
    steps := (s.steps.enum.map (fun p =>
      { step_number := p.1 + 1
        action := p.2.action
        commit_info := some p.2.commit_info
        original_sha := p.2.original_sha
        new_sha := p.2.new_sha.getD ""
        conflicts := p.2.conflicts
        will_be_skipped := p.2.will_be_skipped : OperationStep })) }

/-- `MergeSimulation` dataclass of `core/models.py`. -/
structure MergeSimulation where
  source_branch : String
  target_branch : String
  merge_base_sha : String
  merge_commit_sha : String := ""
  strategy : String := "ort"
  is_fast_forward : Bool := false
  conflicts : List PotentialConflict := []
  files_merged_cleanly : List String := []
  before_graph : CommitGraph := {}
  after_graph : CommitGraph := {}
  deriving DecidableEq, Repr

/-- `MergeSimulation.has_conflicts`. -/
def MergeSimulation.has_conflicts (s : MergeSimulation) : Bool :=
  decide (0 < s.conflicts.length)

/-- `MergeSimulation.to_simulation_result` (`core/models.py`, lines 386-399). -/
def MergeSimulation.to_simulation_result (s : MergeSimulation) : SimulationResult :=
  { operation_type := OperationType.MERGE
    success := ! s.has_conflicts
    before_graph := s.before_graph
    after_graph := s.after_graph
    conflicts := s.conflicts
    source_ref := s.source_branch
    target_ref := s.target_branch
    merge_base_sha := s.merge_base_sha
    new_head_sha := s.merge_commit_sha
    warnings := if s.is_fast_forward then ["Fast-forward merge possible"] else [] }

/-- `ResetSimulation` dataclass of `core/models.py`. -/
structure ResetSimulation where
  target_sha : String
  mode : ResetMode
  current_sha : String
  commits_detached : List CommitInfo := []
  files_unstaged : List String := []
  files_discarded : List String := []
  before_graph : CommitGraph := {}
  after_graph : CommitGraph := {}
  deriving DecidableEq, Repr

/-- `ResetSimulation.to_simulation_result` (`core/models.py`, lines 420-456):
warnings, danger classification and the unified record. -/
def ResetSimulation.to_simulation_result (s : ResetSimulation) : SimulationResult :=
  let warnings :=
    (if s.commits_detached ≠ [] then
      [toString s.commits_detached.length ++ " commit(s) will become unreachable"]
     else []) ++
    (if s.files_discarded ≠ [] then
      [toString s.files_discarded.length ++ " file(s) will have changes discarded"]
     else [])
  let danger :=
    if s.mode = ResetMode.HARD then
      (if s.files_discarded ≠ [] then DangerLevel.HIGH else DangerLevel.MEDIUM)
    else if s.commits_detached ≠ [] then DangerLevel.MEDIUM
    else DangerLevel.LOW
  { operation_type := OperationType.RESET
    success := true
    before_graph := s.before_graph
    after_graph := s.after_graph
    commits_dropped := s.commits_detached
    source_ref := s.current_sha
    target_ref := s.target_sha
    new_head_sha := s.target_sha
    warnings := warnings
    safety_info := some
      { danger_level := danger
        reasons := ["Reset mode: " ++ (match s.mode with
            | ResetMode.SOFT => "SOFT"
            | ResetMode.MIXED => "MIXED"
            | ResetMode.HARD => "HARD"),
          "Commits affected: " ++ toString s.commits_detached.length]
        reversible := decide (s.mode ≠ ResetMode.HARD) } }

/-- `CherryPickSimulation` dataclass of `core/models.py`. -/
structure CherryPickSimulation where
  commits_to_pick : List CommitInfo := []
  target_branch : String := ""
  steps : List OperationStep := []
  before_graph : CommitGraph := {}
  after_graph : CommitGraph := {}
  deriving DecidableEq, Repr

/-- `CherryPickSimulation.has_conflicts`. -/
def CherryPickSimulation.has_conflicts (s : CherryPickSimulation) : Bool :=
  s.steps.any (fun step => decide (0 < step.conflicts.length))

/-- `CherryPickSimulation.conflicts`: all conflicts from all steps. -/
def CherryPickSimulation.conflicts (s : CherryPickSimulation) : List PotentialConflict :=
  (s.steps.map (fun step => step.conflicts)).flatten

/-- `CherryPickSimulation.to_simulation_result` (`core/models.py`, lines 479-494). -/
def CherryPickSimulation.to_simulation_result (s : CherryPickSimulation) : SimulationResult :=
  { operation_type := OperationType.CHERRY_PICK
    success := ! s.has_conflicts
    before_graph := s.before_graph
    after_graph := s.after_graph
    conflicts := s.conflicts
    commits_affected := s.commits_to_pick
    commits_created := (s.steps.filter
      (fun st => st.commit_info.isSome && st.new_sha ≠ "")).filterMap
      (fun st => st.commit_info)
    target_ref := s.target_branch
    steps := s.steps }

/-!
### Conflict detector (`simulation/conflict_detector.py`)

`our_by_path = {fc.path: fc for fc in our_changes}` is modelled by
`lastByPath` (the last change with a given path wins, as in a Python dict
comprehension).  Iteration over the Python `set` of common paths is
modelled by first-occurrence order over the deduplicated path list.
-/

/-- Python `str.startswith`, computed over the character list so that it
reduces in the kernel (unlike `String.startsWith`). -/
def pyStartsWith (s pfx : String) : Bool :=
  decide (s.toList.take pfx.toList.length = pfx.toList)

/-- `ADJACENCY_THRESHOLD` class constant. -/
def ADJACENCY_THRESHOLD : Nat := 3

/-- Last change in `changes` whose `path` is `p`
(dict-comprehension semantics of `{fc.path: fc for fc in changes}`). -/
def lastByPath (changes : List FileChange) (p : String) : Option FileChange :=
  changes.reverse.find? (fun fc => fc.path = p)

/-- Last change in `changes` whose `old_path` is `some p`
(`{fc.old_path: fc for fc in changes if fc.old_path}`). -/
def lastByOldPath (changes : List FileChange) (p : String) : Option FileChange :=
  changes.reverse.find? (fun fc => fc.old_path = some p)

/-- `_find_overlapping_hunks` (lines 170-202): nested loop over the two hunk
lists collecting old-range pairs that overlap or are within the adjacency
threshold. -/
def findOverlappingHunks (our_hunks their_hunks : List DiffHunk) :
    List ((Nat × Nat) × (Nat × Nat)) :=
  our_hunks.flatMap (fun oh =>
    their_hunks.filterMap (fun th =>
      if oh.old_range.1 ≤ th.old_range.2 + ADJACENCY_THRESHOLD ∧
         th.old_range.1 ≤ oh.old_range.2 + ADJACENCY_THRESHOLD then
        some (oh.old_range, th.old_range)
      else none))

/-- The `+`/`-` lines of the last hunk with a given old range
(`changes_by_range` dict of `_classify_overlap_severity`, with
`.get(range, [])`). -/
def changesByRange (hunks : List DiffHunk) (r : Nat × Nat) : List String :=
  match hunks.reverse.find? (fun h => h.old_range = r) with
  | some h => h.lines.filter (fun l => pyStartsWith l "+" || pyStartsWith l "-")
  | none => []

/-- `_classify_overlap_severity` (lines 204-237): CERTAIN when some
overlapping pair carries different `+`/`-` content, LIKELY otherwise. -/
def classifyOverlapSeverity (our_hunks their_hunks : List DiffHunk)
    (overlaps : List ((Nat × Nat) × (Nat × Nat))) : ConflictSeverity :=
  if overlaps.any (fun p =>
      decide (changesByRange our_hunks p.1 ≠ changesByRange their_hunks p.2)) then
    ConflictSeverity.CERTAIN
  else
    ConflictSeverity.LIKELY

/-- `_describe_overlap` (lines 239-264). -/
def describeOverlap (path : String)
    (overlaps : List ((Nat × Nat) × (Nat × Nat)))
    (severity : ConflictSeverity) : String :=
  if severity = ConflictSeverity.CERTAIN then
    match overlaps with
    | [p] => "Lines " ++ toString p.1.1 ++ "-" ++ toString p.1.2 ++ " in '" ++
        path ++ "' modified differently on both sides"
    | _ => "Multiple regions in '" ++ path ++ "' modified differently on both sides"
  else
    match overlaps with
    | [p] => "Lines " ++ toString p.1.1 ++ "-" ++ toString p.1.2 ++ " in '" ++
        path ++ "' modified on both sides (identical changes, may auto-resolve)"
    | _ => "Multiple regions in '" ++ path ++
        "' modified on both sides (identical changes, may auto-resolve)"

/-- `_analyze_file_conflict` (lines 80-168). -/
def analyzeFileConflict (path : String) (our_fc their_fc : FileChange) :
    Option PotentialConflict :=
  if our_fc.change_type = ChangeType.DELETE ∧
     their_fc.change_type = ChangeType.DELETE then
    none
  else if our_fc.change_type = ChangeType.ADD ∧
          their_fc.change_type = ChangeType.ADD ∧
          our_fc.new_sha = their_fc.new_sha then
    none
  else if our_fc.change_type = ChangeType.ADD ∧
          their_fc.change_type = ChangeType.ADD then
    some { path := path
           severity := ConflictSeverity.CERTAIN
           description := "Both sides add '" ++ path ++ "' with different content"
           our_change := some our_fc
           their_change := some their_fc }
  else if (our_fc.change_type = ChangeType.DELETE ∧
            (their_fc.change_type = ChangeType.MODIFY ∨
             their_fc.change_type = ChangeType.ADD)) ∨
          (their_fc.change_type = ChangeType.DELETE ∧
            (our_fc.change_type = ChangeType.MODIFY ∨
             our_fc.change_type = ChangeType.ADD)) then
    none
  else if our_fc.change_type = ChangeType.ADD ∨
          their_fc.change_type = ChangeType.ADD then
    some { path := path
           severity := ConflictSeverity.CERTAIN
           description := "File '" ++ path ++ "' added on one side, modified on other"
           our_change := some our_fc
           their_change := some their_fc }
  else if our_fc.hunks = [] ∨ their_fc.hunks = [] then
    some { path := path
           severity := ConflictSeverity.LIKELY
           description := "Both sides modify '" ++ path ++ "' (could not analyze hunks)"
           our_change := some our_fc
           their_change := some their_fc }
  else
    if findOverlappingHunks our_fc.hunks their_fc.hunks = [] then
      none
    else
      some { path := path
             severity := classifyOverlapSeverity our_fc.hunks their_fc.hunks
               (findOverlappingHunks our_fc.hunks their_fc.hunks)
             description := describeOverlap path
               (findOverlappingHunks our_fc.hunks their_fc.hunks)
               (classifyOverlapSeverity our_fc.hunks their_fc.hunks
                 (findOverlappingHunks our_fc.hunks their_fc.hunks))
             our_change := some our_fc
             their_change := some their_fc
             overlapping_ranges := findOverlappingHunks our_fc.hunks their_fc.hunks }

/-- The common paths of the two change sets
(`set(our_by_path) & set(their_by_path)`, iterated in first-occurrence
order of `our_changes`). -/
def commonPaths (our_changes their_changes : List FileChange) : List String :=
  ((our_changes.map (fun fc => fc.path)).dedup).filter
    (fun p => their_changes.any (fun fc => fc.path = p))

/-- The per-common-path part of `detect_conflicts` (lines 57-66). -/
def commonPathConflicts (our_changes their_changes : List FileChange) :
    List PotentialConflict :=
  (commonPaths our_changes their_changes).filterMap (fun p =>
    match lastByPath our_changes p, lastByPath their_changes p with
    | some o, some t => analyzeFileConflict p o t
    | _, _ => none)

/-- Last DELETE change with path `p`
(`{fc.path: fc for fc in changes if fc.change_type == DELETE}`). -/
def lastDeleted (changes : List FileChange) (p : String) : Option FileChange :=
  (changes.filter (fun fc => fc.change_type = ChangeType.DELETE)).reverse.find?
    (fun fc => fc.path = p)

/-- Last MODIFY-or-ADD change with path `p`. -/
def lastModified (changes : List FileChange) (p : String) : Option FileChange :=
  (changes.filter (fun fc =>
    fc.change_type = ChangeType.MODIFY ∨ fc.change_type = ChangeType.ADD)).reverse.find?
    (fun fc => fc.path = p)

/-- Paths deleted in `changes` (keys of the `our_deleted` dict), in
first-occurrence order, deduplicated. -/
def deletedPaths (changes : List FileChange) : List String :=
  ((changes.filter (fun fc => fc.change_type = ChangeType.DELETE)).map
    (fun fc => fc.path)).dedup

/-- Paths modified or added in `changes` (keys of `their_modified`). -/
def modifiedPaths (changes : List FileChange) : List String :=
  ((changes.filter (fun fc =>
    fc.change_type = ChangeType.MODIFY ∨ fc.change_type = ChangeType.ADD)).map
    (fun fc => fc.path)).dedup

/-- `_detect_delete_modify_conflicts` (lines 266-312): our deletes against
their modifies, then their deletes against our modifies. -/
def detectDeleteModifyConflicts (our_changes their_changes : List FileChange) :
    List PotentialConflict :=
  ((deletedPaths our_changes).filter
      (fun p => decide (p ∈ modifiedPaths their_changes))).filterMap
    (fun p =>
      match lastDeleted our_changes p, lastModified their_changes p with
      | some o, some t => some
          { path := p
            severity := ConflictSeverity.CERTAIN
            description := "File '" ++ p ++ "' deleted on target but modified in commit"
            our_change := some o
            their_change := some t }
      | _, _ => none) ++
  ((deletedPaths their_changes).filter
      (fun p => decide (p ∈ modifiedPaths our_changes))).filterMap
    (fun p =>
      match lastModified our_changes p, lastDeleted their_changes p with
      | some o, some t => some
          { path := p
            severity := ConflictSeverity.CERTAIN
            description := "File '" ++ p ++ "' modified on target but deleted in commit"
            our_change := some o
            their_change := some t }
      | _, _ => none)

/-- Old paths recorded in `changes` (keys of `our_old_paths`), in
first-occurrence order, deduplicated. -/
def oldPaths (changes : List FileChange) : List String :=
  (changes.filterMap (fun fc => fc.old_path)).dedup

/-- Last RENAME change whose `old_path` is `some p` (the `our_renames`
dict of `_detect_rename_conflicts`). -/
def lastRenamed (changes : List FileChange) (p : String) : Option FileChange :=
  (changes.filter (fun fc => fc.change_type = ChangeType.RENAME)).reverse.find?
    (fun fc => fc.old_path = some p)

/-- Old paths of RENAME changes (keys of the `our_renames` dict). -/
def renamedOldPaths (changes : List FileChange) : List String :=
  ((changes.filter (fun fc => fc.change_type = ChangeType.RENAME)).filterMap
    (fun fc => fc.old_path)).dedup

/-- Paths of MODIFY changes (the `their_modifies_paths` set). -/
def strictModifyPaths (changes : List FileChange) : List String :=
  ((changes.filter (fun fc => fc.change_type = ChangeType.MODIFY)).map
    (fun fc => fc.path)).dedup

/-- `_detect_rename_conflicts` (lines 314-393): rename/rename with
diverging targets, then rename-vs-modify in both directions. -/
def detectRenameConflicts (our_changes their_changes : List FileChange) :
    List PotentialConflict :=
  ((oldPaths our_changes).filter
      (fun p => decide (p ∈ oldPaths their_changes))).filterMap
    (fun p =>
      match lastByOldPath our_changes p, lastByOldPath their_changes p with
      | some o, some t =>
        if o.path ≠ t.path then
          some { path := p
                 severity := ConflictSeverity.CERTAIN
                 description := "File '" ++ p ++ "' renamed to '" ++ o.path ++
                   "' on target but renamed to '" ++ t.path ++ "' in commit"
                 our_change := some o
                 their_change := some t }
        else none
      | _, _ => none) ++
  ((renamedOldPaths our_changes).filter
      (fun p => decide (p ∈ strictModifyPaths their_changes))).filterMap
    (fun p =>
      match lastRenamed our_changes p, their_changes.find? (fun fc => fc.path = p) with
      | some o, some t => some
          { path := p
            severity := ConflictSeverity.LIKELY
            description := "File '" ++ p ++ "' renamed to '" ++ o.path ++
              "' on target but modified in commit"
            our_change := some o
            their_change := some t }
      | _, _ => none) ++
  ((renamedOldPaths their_changes).filter
      (fun p => decide (p ∈ strictModifyPaths our_changes))).filterMap
    (fun p =>
      match our_changes.find? (fun fc => fc.path = p), lastRenamed their_changes p with
      | some o, some t => some
          { path := p
            severity := ConflictSeverity.LIKELY
            description := "File '" ++ p ++ "' modified on target but renamed to '" ++
              t.path ++ "' in commit"
            our_change := some o
            their_change := some t }
      | _, _ => none)

/-- `detect_conflicts` (lines 27-78): common-path analysis, then
delete/modify pass, then rename pass. -/
def detectConflicts (our_changes their_changes : List FileChange) :
    List PotentialConflict :=
  commonPathConflicts our_changes their_changes ++
  detectDeleteModifyConflicts our_changes their_changes ++
  detectRenameConflicts our_changes their_changes

/-- Concrete hunk with old range `[1, 3)`. -/
def hunkA13 : DiffHunk :=
  { old_start := 1, old_count := 2, new_start := 1, new_count := 2 }

/-- Concrete hunk with old range `[6, 7)`: gap of 3 lines after `[1, 3)`. -/
def hunkB67 : DiffHunk :=
  { old_start := 6, old_count := 1, new_start := 6, new_count := 1 }

/-- Concrete hunk with old range `[7, 8)`: gap of 4 lines after `[1, 3)`. -/
def hunkB78 : DiffHunk :=
  { old_start := 7, old_count := 1, new_start := 7, new_count := 1 }

/-!
### Rebase simulator (`simulation/rebase.py`)

The repository / diff-analyzer calls made by `_simulate_steps` are modelled
by an environment record: `patchId` is `DiffAnalyzer.compute_patch_id`,
`getChanges` is `Repository.get_commit_changes`, and `sha1hex` is
`hashlib.sha1(...).hexdigest()` (abstract).
-/

/-- Environment consumed by the rebase step simulation. -/
structure RebaseEnv where
  patchId : String → String
  getChanges : String → List FileChange
  sha1hex : String → String

/-- `_generate_simulated_sha` (`simulation/rebase.py`, lines 292-302):
hash of `f"{commit.sha}:{onto_sha}:{step_index}"`. -/
def generateSimulatedSha (env : RebaseEnv) (commit : CommitInfo)
    (onto_sha : String) (step_index : Nat) : String :=
  env.sha1hex (commit.sha ++ ":" ++ onto_sha ++ ":" ++ toString step_index)

/-- `_simulate_steps` (`simulation/rebase.py`, lines 236-290).  The loop is
expressed by structural recursion; `accumulated` is the mutable
`accumulated_changes` buffer and `steps_so_far` is `len(steps)`. -/
def simulateSteps (env : RebaseEnv) (commits : List CommitInfo)
    (onto_patch_ids : List String) (accumulated : List FileChange)
    (onto_sha : String) (steps_so_far : Nat) : List RebaseStep :=
  match commits with
  | [] => []
  | commit :: rest =>
    let patch_id := env.patchId commit.sha
    let will_skip := decide (patch_id ∈ onto_patch_ids)
    let commit_changes := env.getChanges commit.sha
    let conflicts :=
      if will_skip then [] else detectConflicts accumulated commit_changes
    let new_sha := generateSimulatedSha env commit onto_sha steps_so_far
    { original_sha := commit.sha
      commit_info := commit
      action := "pick"
      new_sha := if will_skip then none else some new_sha
      conflicts := conflicts
      will_be_skipped := will_skip } ::
      simulateSteps env rest onto_patch_ids
        (if will_skip then accumulated else accumulated ++ commit_changes)
        onto_sha (steps_so_far + 1)

/-- Entry point of `_simulate_steps`: the accumulated buffer starts as a
copy of `onto_changes` and the step counter at zero. -/
def rebaseSimulateSteps (env : RebaseEnv) (commits : List CommitInfo)
    (onto_patch_ids : List String) (onto_changes : List FileChange)
    (onto_sha : String) : List RebaseStep :=
  simulateSteps env commits onto_patch_ids onto_changes onto_sha 0

/-- The accumulated buffer seen by step `i`: the onto changes followed by
the changes of every earlier non-skipped commit. -/
def accBefore (env : RebaseEnv) (onto_patch_ids : List String)
    (onto_changes : List FileChange) (commits : List CommitInfo) (i : Nat) :
    List FileChange :=
  onto_changes ++ ((commits.take i).filter
    (fun c => ¬ env.patchId c.sha ∈ onto_patch_ids)).flatMap
    (fun c => env.getChanges c.sha)

/-!
### Dispatcher rebase-command parsing (`simulation/dispatcher.py`)

`_parse_rebase_command` (lines 238-258) recognises only `--onto`/`-o`;
every other flag is skipped, and a positional argument is stored as the
onto ref only when none is set yet.  `source` is fixed to `"HEAD"` when the
`parsed` dict is initialised and never written again.
-/

/-- The `args` dict produced by `_parse_rebase_command`. -/
structure RebaseArgs where
  onto : String
  source : String
  deriving DecidableEq, Repr

/-- The `while i < len(args)` loop of `_parse_rebase_command`, carrying the
current value of `parsed.get("onto")`. -/
def parseRebaseGo : List String → Option String → Option String
  | [], onto => onto
  | arg :: rest, onto =>
    if arg = "--onto" ∨ arg = "-o" then
      match rest with
      | value :: rest2 => parseRebaseGo rest2 (some value)
      | [] => onto
    else if pyStartsWith arg "-" then
      parseRebaseGo rest onto
    else
      parseRebaseGo rest (if onto.isSome then onto else some arg)

/-- `_parse_rebase_command`: fails (raises `ValueError`) when no onto ref
was found, otherwise returns `{onto, source := "HEAD"}`. -/
def parseRebaseCommand (args : List String) : Option RebaseArgs :=
  match parseRebaseGo args none with
  | some onto => some { onto := onto, source := "HEAD" }
  | none => none

/-!
### Cherry-pick simulator (`simulation/cherry_pick.py`)

Repository access is modelled by the `PickEnv` environment record:
`getCommit` is `Repository.get_commit` (raising modelled as `none`),
`walkCommits` is `Repository.walk_commits (include, exclude, max_entries)`,
`getCommitChanges` is `Repository.get_commit_changes`, `buildGraph` is
`Repository.build_graph`, `headBranch` is `Repository.head_branch`, and
`sha1hex` is the abstract `hashlib.sha1(...).hexdigest()`.
-/

/-- Environment consumed by the cherry-pick simulator. -/
structure PickEnv where
  getCommit : String → Option CommitInfo
  walkCommits : List String → List String → Option Nat → List CommitInfo
  getCommitChanges : String → List FileChange
  buildGraph : List String → Nat → CommitGraph
  headBranch : Option String
  sha1hex : String → String

/-- `_generate_picked_sha` (lines 227-232). -/
def generatePickedSha (env : PickEnv) (original_sha onto_sha : String)
    (step : Nat) : String :=
  env.sha1hex ("cherry-pick:" ++ original_sha ++ ":" ++ onto_sha ++ ":" ++
    toString step)

/-- `_get_recent_changes` (lines 187-195). -/
def getRecentChanges (env : PickEnv) (from_sha : String) (depth : Nat) :
    List FileChange :=
  (env.walkCommits [from_sha] [] (some depth)).flatMap
    (fun c => env.getCommitChanges c.sha)

/-- `_simulate_pick` (lines 197-225): every pick gets conflicts against the
accumulated buffer and a synthesized hash; `will_be_skipped` keeps its
dataclass default `False`. -/
def simulatePick (env : PickEnv) (commit : CommitInfo) (current_head : String)
    (accumulated : List FileChange) (step_number : Nat) : OperationStep :=
  let commit_changes := env.getCommitChanges commit.sha
  let conflicts := detectConflicts accumulated commit_changes
  let new_sha := generatePickedSha env commit.sha current_head step_number
  { step_number := step_number
    action := "pick"
    commit_info := some commit
    original_sha := commit.sha
    new_sha := new_sha
    conflicts := conflicts
    description := "Cherry-pick " ++ commit.short_sha ++ ": " ++
      pyTake commit.first_line 40 }

/-- The `for i, commit in enumerate(commits_to_pick)` loop of `simulate`
(lines 149-162): step numbers are `i + 1`, the head advances to `new_sha`
when it is non-empty, and the buffer is extended unconditionally. -/
def pickGo (env : PickEnv) :
    List CommitInfo → String → List FileChange → Nat → List OperationStep
  | [], _, _, _ => []
  | commit :: rest, simulated_head, accumulated, i =>
    let step := simulatePick env commit simulated_head accumulated (i + 1)
    let new_head := if step.new_sha ≠ "" then step.new_sha else simulated_head
    step :: pickGo env rest new_head
      (accumulated ++ env.getCommitChanges commit.sha) (i + 1)

/-- `_build_after_graph` (lines 244-280). -/
def cherryBuildAfterGraph (env : PickEnv) (target : String)
    (target_commit : CommitInfo) (steps : List OperationStep) : CommitGraph :=
  let g1 := (env.walkCommits [target_commit.sha] [] (some 15)).foldl
    CommitGraph.add_commit {}
  let gp := steps.foldl (fun (st : CommitGraph × String) step =>
    match step.commit_info with
    | some ci =>
      if step.new_sha ≠ "" then
        (st.1.add_commit
          { sha := step.new_sha, message := ci.message, author := ci.author,
            author_email := ci.author_email, timestamp := ci.timestamp,
            parent_shas := [st.2], tree_sha := ci.tree_sha }, step.new_sha)
      else st
    | none => st) (g1, target_commit.sha)
  let target_branch :=
    if target = "HEAD" then
      (match env.headBranch with | some b => b | none => "target")
    else target
  { gp.1 with
    head_sha := gp.2
    head_branch := env.headBranch
    branch_tips := dictInsert gp.1.branch_tips target_branch gp.2 }

/-- `CherryPickSimulator.validate` (lines 66-119). -/
def cherryPickValidate (env : PickEnv) (commit_refs : List String)
    (target : String) : List String × List String :=
  match env.getCommit target with
  | none => (["Target ref not found: " ++ target], [])
  | some _ =>
    let errors := commit_refs.filterMap (fun ref =>
      if (env.getCommit ref).isNone then some ("Commit not found: " ++ ref)
      else none)
    if errors ≠ [] then (errors, [])
    else
      let resolved := commit_refs.filterMap env.getCommit
      let target_history :=
        (env.walkCommits [target] [] (some 1000)).map (fun c => c.sha)
      let warnings1 := resolved.filterMap (fun c =>
        if c.sha ∈ target_history then
          some ("Commit " ++ c.short_sha ++ " is already in target history")
        else none)
      let warnings2 := resolved.filterMap (fun c =>
        if c.is_merge then
          some ("Commit " ++ c.short_sha ++
            " is a merge commit; cherry-pick may behave unexpectedly")
        else none)
      ([], warnings1 ++ warnings2)

/-- `CherryPickSimulator.simulate` (lines 121-185); a failing ref
resolution (a raised `RefNotFoundError`) is modelled as `none`. -/
def cherryPickSimulate (env : PickEnv) (commit_refs : List String)
    (target : String) : Option CherryPickSimulation :=
  match commit_refs.mapM env.getCommit, env.getCommit target with
  | some commits_to_pick, some target_commit =>
    let accumulated := getRecentChanges env target_commit.sha 10
    let steps := pickGo env commits_to_pick target_commit.sha accumulated 0
    let before_graph :=
      env.buildGraph (target_commit.sha :: commits_to_pick.map (fun c => c.sha)) 30
    let after_graph := cherryBuildAfterGraph env target target_commit steps
    let target_branch :=
      if target = "HEAD" then
        (match env.headBranch with | some b => b | none => "HEAD")
      else target
    some { commits_to_pick := commits_to_pick
           target_branch := target_branch
           steps := steps
           before_graph := before_graph
           after_graph := after_graph }
  | _, _ => none

/-!
### Merge simulator (`simulation/merge.py`)
-/

/-- Environment consumed by the merge simulator (repository facade plus the
abstract `hashlib.sha1(...).hexdigest()`). -/
structure MergeEnv where
  getCommit : String → Option CommitInfo
  findMergeBase : String → String → Option String
  walkCommits : List String → List String → Option Nat → List CommitInfo
  getCommitChanges : String → List FileChange
  buildGraph : List String → Nat → CommitGraph
  headBranch : Option String
  sha1hex : String → String

/-- `_collect_changes` (lines 191-199). -/
def collectChanges (env : MergeEnv) (from_sha to_sha : String) :
    List FileChange :=
  (env.walkCommits [to_sha] [from_sha] none).flatMap
    (fun c => env.getCommitChanges c.sha)

/-- `_generate_merge_commit_sha` (lines 225-228). -/
def generateMergeCommitSha (env : MergeEnv) (source_sha target_sha : String) :
    String :=
  env.sha1hex ("merge:" ++ source_sha ++ ":" ++ target_sha)

/-- `_find_clean_merges` (lines 201-223): sorted union of one-side-only
paths and both-side paths not predicted to conflict. -/
def findCleanMerges (source_changes target_changes : List FileChange)
    (conflicts : List PotentialConflict) : List String :=
  let conflict_paths := (conflicts.map (fun c => c.path)).dedup
  let source_paths := (source_changes.map (fun fc => fc.path)).dedup
  let target_paths := (target_changes.map (fun fc => fc.path)).dedup
  let only_source := source_paths.filter (fun p => ¬ p ∈ target_paths)
  let only_target := target_paths.filter (fun p => ¬ p ∈ source_paths)
  let both_clean := (source_paths.filter (fun p => p ∈ target_paths)).filter
    (fun p => ¬ p ∈ conflict_paths)
  ((only_source ++ only_target ++ both_clean).dedup).mergeSort
    (fun a b => decide (a ≤ b))

/-- The synthesized merge commit of `_build_after_graph` (lines 250-259). -/
def mergeCommitInfo (source target : String)
    (source_commit target_commit : CommitInfo) (merge_commit_sha : String) :
    CommitInfo :=
  { sha := merge_commit_sha
    message := "Merge branch '" ++ source ++ "' into " ++ target
    author := target_commit.author
    author_email := target_commit.author_email
    timestamp := target_commit.timestamp + 1
    parent_shas := [target_commit.sha, source_commit.sha]
    tree_sha := "" }

/-- `_build_after_graph` (lines 234-278). -/
def mergeBuildAfterGraph (env : MergeEnv) (source target : String)
    (source_commit target_commit : CommitInfo) (merge_commit_sha : String)
    (is_fast_forward : Bool) : CommitGraph :=
  let base :=
    if is_fast_forward then
      let g := (env.walkCommits [source_commit.sha] [] (some 20)).foldl
        CommitGraph.add_commit {}
      { g with head_sha := source_commit.sha }
    else
      let g0 := CommitGraph.add_commit {}
        (mergeCommitInfo source target source_commit target_commit
          merge_commit_sha)
      let g1 := (env.walkCommits [target_commit.sha] [] (some 15)).foldl
        CommitGraph.add_commit g0
      let g2 := (env.walkCommits [source_commit.sha] [] (some 15)).foldl
        CommitGraph.add_commit g1
      { g2 with head_sha := merge_commit_sha }
  let target_branch :=
    if target = "HEAD" then
      (match env.headBranch with | some b => b | none => "target")
    else target
  { base with
    head_branch := some target_branch
    branch_tips := dictInsert
      (dictInsert base.branch_tips target_branch base.head_sha)
      source source_commit.sha }

/-- `MergeSimulator.simulate` (lines 116-189); raised `RefNotFoundError` /
`ValueError` are modelled as `none`. -/
def mergeSimulate (env : MergeEnv) (source target : String) (no_ff : Bool)
    (strategy : String) : Option MergeSimulation :=
  match env.getCommit source, env.getCommit target with
  | some source_commit, some target_commit =>
    match env.findMergeBase source target with
    | some merge_base_sha =>
      let is_fast_forward :=
        decide (merge_base_sha = target_commit.sha) && ! no_ff
      let source_changes := collectChanges env merge_base_sha source_commit.sha
      let target_changes := collectChanges env merge_base_sha target_commit.sha
      let conflicts := detectConflicts target_changes source_changes
      let files_merged_cleanly :=
        findCleanMerges source_changes target_changes conflicts
      let merge_commit_sha :=
        if is_fast_forward then ""
        else generateMergeCommitSha env source_commit.sha target_commit.sha
      let target_branch :=
        if target = "HEAD" then
          (match env.headBranch with | some b => b | none => "HEAD")
        else target
      some { source_branch := source
             target_branch := target_branch
             merge_base_sha := merge_base_sha
             merge_commit_sha :=
               if is_fast_forward then source_commit.sha else merge_commit_sha
             strategy := strategy
             is_fast_forward := is_fast_forward
             conflicts := conflicts
             files_merged_cleanly := files_merged_cleanly
             before_graph :=
               env.buildGraph [source_commit.sha, target_commit.sha] 30
             after_graph := mergeBuildAfterGraph env source target
               source_commit target_commit merge_commit_sha is_fast_forward }
    | none => none
  | _, _ => none

/-!
### Diff analyzer patch-id (`core/diff_analyzer.py`)

Byte strings are modelled as `List Char` and the diff text as its list of
lines (Python splits `diff_bytes` on the newline byte before normalizing).
`hashlib.sha1(...).hexdigest()` is an abstract hash `sha1hex` supplied as a
parameter.
-/

/-- Python bytes whitespace (`bytes.strip` / `bytes.rstrip`): space, tab,
newline, vertical tab, form feed, carriage return. -/
def pyIsSpace (c : Char) : Bool :=
  c = Char.ofNat 32 || c = Char.ofNat 9 || c = Char.ofNat 10 ||
  c = Char.ofNat 11 || c = Char.ofNat 12 || c = Char.ofNat 13

/-- `line.rstrip()`: drop trailing whitespace. -/
def rstrip (l : List Char) : List Char :=
  (l.reverse.dropWhile pyIsSpace).reverse

/-- `not line.strip()`: the line is empty or all-whitespace. -/
def isBlank (l : List Char) : Bool :=
  l.all pyIsSpace

/-- `line.startswith(p)` over character lists. -/
def pfxOf (p l : List Char) : Bool :=
  decide (l.take p.length = p)

/-- `_normalize_for_patch_id` (`core/diff_analyzer.py`, lines 282-319),
applied to the list of lines of the diff: drop `index `/`diff --git`
lines, collapse hunk headers to `@@`, drop blank lines, right-strip the
rest (the `+`/`-`/space branch and the final branch of the Python loop
both append `line.rstrip()` and are collapsed here). -/
def normalizeForPatchId (lines : List (List Char)) : List (List Char) :=
  lines.filterMap (fun line =>
    if pfxOf "index ".toList line then none
    else if pfxOf "diff --git".toList line then none
    else if pfxOf "@@".toList line then some "@@".toList
    else if isBlank line then none
    else some (rstrip line))

/-- `b"\n".join(...)`. -/
def joinLines : List (List Char) → List Char
  | [] => []
  | [l] => l
  | l :: rest => l ++ Char.ofNat 10 :: joinLines rest

/-- `compute_patch_id` (`core/diff_analyzer.py`, lines 247-280): a root
commit (no parents) hashes its own sha; any other commit hashes the
normalized first-parent diff. -/
def computePatchId (sha1hex : List Char → List Char) (parent_count : Nat)
    (commit_sha : List Char) (diff_lines : List (List Char)) : List Char :=
  if parent_count = 0 then sha1hex commit_sha
  else sha1hex (joinLines (normalizeForPatchId diff_lines))

/-- Modelled from the spec sentence for the refinement comparison: "drop
lines that begin with `index ` or `diff --git`, rewrite every hunk header
to the literal two-character string `@@`, strip trailing whitespace, and
remove empty lines". -/
def specNormalize (lines : List (List Char)) : List (List Char) :=
  ((lines.filter (fun l =>
      ¬ pfxOf "index ".toList l ∧ ¬ pfxOf "diff --git".toList l)).map
    (fun l => if pfxOf "@@".toList l then "@@".toList else rstrip l)).filter
    (fun l => l ≠ [])

/-- Lowercase hexadecimal digit. -/
def hexChar (c : Char) : Bool :=
  c ∈ "0123456789abcdef".toList

/-- A well-formed (lowercase, 40 characters) commit sha. -/
def shaOK (s : List Char) : Prop :=
  s.length = 40 ∧ ∀ c ∈ s, hexChar c

/-- A well-formed line of the split unified-diff text fed to the
normalizer: a blank line (in particular the empty string that
`diff_bytes.split(b"\n")` yields after the differ's trailing newline),
a content line (`+`, `-`, space, backslash) or one of the per-file
header forms. -/
def diffLineWF (l : List Char) : Prop :=
  isBlank l = true ∨
  pfxOf "+".toList l = true ∨ pfxOf "-".toList l = true ∨
  pfxOf " ".toList l = true ∨ pfxOf "\\".toList l = true ∨
  pfxOf "diff --git".toList l = true ∨ pfxOf "index ".toList l = true ∨
  pfxOf "@@".toList l = true ∨ pfxOf "old mode".toList l = true ∨
  pfxOf "new mode".toList l = true ∨ pfxOf "new file mode".toList l = true ∨
  pfxOf "deleted file mode".toList l = true ∨
  pfxOf "similarity index".toList l = true ∨
  pfxOf "dissimilarity index".toList l = true ∨
  pfxOf "rename from".toList l = true ∨ pfxOf "rename to".toList l = true ∨
  pfxOf "copy from".toList l = true ∨ pfxOf "copy to".toList l = true ∨
  pfxOf "Binary files".toList l = true

instance (s : List Char) : Decidable (shaOK s) := by
  unfold shaOK
  infer_instance

instance (l : List Char) : Decidable (diffLineWF l) := by
  unfold diffLineWF
  infer_instance

/-!
### C6: ref resolution and the ambiguous short prefix

Shallow embedding of `Repository._resolve_ref` and
`Repository._resolve_relative_ref` (`core/repository.py`, lines 59-175)
over an abstract read-only view of the dulwich repository.  The error
type mirrors the exception classes of `core/exceptions.py` that the
resolver can raise: `RefNotFoundError` (whose constructor argument is
rendered as `Reference not found: {ref}`) and Python's built-in
`KeyError` escaping from `self._repo[...]` / `self._repo.head()`.  The
taxonomy defines no separate ambiguous-reference class.
-/

/-- An object of the object store: a commit (with its parent shas) or a
non-commit object (tree, blob, tag). -/
inductive StoreObj where
  | commit (parents : List (List Char)) : StoreObj
  | nonCommit : StoreObj
deriving DecidableEq

/-- The errors `_resolve_ref` can raise: `RefNotFoundError(arg)` from
`core/exceptions.py` (also used for the ambiguous short prefix, with the
formatted message passed as the `ref` argument), and an escaping Python
`KeyError`. -/
inductive RepoError where
  | refNotFoundError (ref : List Char) : RepoError
  | keyError : RepoError
deriving DecidableEq

/-- Read-only view of the repository state used by `_resolve_ref`:
the object store (iterated in list order), the `refs/heads`,
`refs/tags` and `refs/remotes` namespaces, and `HEAD` (absent when the
repository has no commits, making `head()` raise `KeyError`). -/
structure RefStore where
  objects : List (List Char × StoreObj)
  heads : List (List Char × List Char)
  tags : List (List Char × List Char)
  remotes : List (List Char × List Char)
  head : Option (List Char)

/-- `self._repo[sha]` (`None` models the `KeyError` case). -/
def getObj (st : RefStore) (sha : List Char) : Option StoreObj :=
  (st.objects.find? (fun p => decide (p.1 = sha))).map (fun p => p.2)

/-- `isinstance(obj, Commit)` on the result of a store lookup. -/
def isCommitObj : Option StoreObj → Bool
  | some (StoreObj.commit _) => true
  | _ => false

/-- `self._repo.refs[ns + ref]` for one of the three ref namespaces. -/
def lookupRef (m : List (List Char × List Char)) (k : List Char) :
    Option (List Char) :=
  (m.find? (fun p => decide (p.1 = k))).map (fun p => p.2)

/-- ASCII `str.lower` on one character. -/
def lowerChar (c : Char) : Char :=
  if 65 ≤ c.toNat ∧ c.toNat ≤ 90 then Char.ofNat (c.toNat + 32) else c

/-- ASCII `str.upper` on one character. -/
def upperChar (c : Char) : Char :=
  if 97 ≤ c.toNat ∧ c.toNat ≤ 122 then Char.ofNat (c.toNat - 32) else c

/-- `str.isdigit` restricted to ASCII. -/
def isDigit (c : Char) : Bool :=
  decide (48 ≤ c.toNat ∧ c.toNat ≤ 57)

/-- The digit-accumulation loop `n = n * 10 + int(ref[i])` over a run of
digits. -/
def digitsVal (l : List Char) : Nat :=
  l.foldl (fun n c => n * 10 + (c.toNat - 48)) 0

/-- The short-sha scan (`core/repository.py`, lines 86-95): every sha of
the object store whose hex string starts with the prefix and whose
object is a commit. -/
def shortMatches (st : RefStore) (pfx : List Char) : List (List Char) :=
  (st.objects.map (fun p => p.1)).filter
    (fun sha => pfxOf pfx sha && isCommitObj (getObj st sha))

/-- `f"{ref_or_sha} is ambiguous ({len(matches)} matches)"`. -/
def ambiguousMessage (ref : List Char) (n : Nat) : List Char :=
  ref ++ " is ambiguous (".toList ++ (toString n).toList ++
    " matches)".toList

/-- The `for _ in range(n)` loop of the `~` branch
(`core/repository.py`, lines 153-160): follow the first parent `n`
times, re-fetching and type-checking each parent object. -/
def followFirst (st : RefStore) (ref : List Char) :
    List (List Char) → List Char → Nat → Except RepoError (List Char)
  | _, current, 0 => Except.ok current
  | ps, _current, Nat.succ k =>
    match ps with
    | [] => Except.error (RepoError.refNotFoundError ref)
    | p :: _ =>
      match getObj st p with
      | some (StoreObj.commit ps2) => followFirst st ref ps2 p k
      | some StoreObj.nonCommit =>
        Except.error (RepoError.refNotFoundError ref)
      | none => Except.error RepoError.keyError

/-- The `while i < len(ref)` loop of `_resolve_relative_ref`
(`core/repository.py`, lines 139-173), recursing on the unread suffix of
the ref: each step re-fetches the current object, then handles `~N`
(N-th first ancestor, default 1) or `^N` (N-th parent, default 1), and
raises `RefNotFoundError(ref)` on any other character. -/
def resolveRelAux (st : RefStore) (ref : List Char) (current : List Char) :
    List Char → Except RepoError (List Char)
  | [] => Except.ok current
  | c :: rest =>
    match getObj st current with
    | none => Except.error RepoError.keyError
    | some StoreObj.nonCommit => Except.error (RepoError.refNotFoundError ref)
    | some (StoreObj.commit ps) =>
      if c = Char.ofNat 126 then
        let n0 := digitsVal (rest.takeWhile isDigit)
        let n := if n0 = 0 then 1 else n0
        match followFirst st ref ps current n with
        | Except.error e => Except.error e
        | Except.ok cur2 => resolveRelAux st ref cur2 (rest.dropWhile isDigit)
      else if c = Char.ofNat 94 then
        let n0 := digitsVal (rest.takeWhile isDigit)
        let n := if n0 = 0 then 1 else n0
        if ps.length < n then Except.error (RepoError.refNotFoundError ref)
        else resolveRelAux st ref (ps.getD (n - 1) current)
          (rest.dropWhile isDigit)
      else Except.error (RepoError.refNotFoundError ref)
termination_by rest => rest.length
decreasing_by
  all_goals
    simp_wf
    have h : (rest.dropWhile isDigit).length ≤ rest.length :=
      (List.dropWhile_sublist isDigit).length_le
    omega

/-- `_resolve_relative_ref` (`core/repository.py`, lines 134-175):
start from `HEAD` and walk the suffix after the four characters
`HEAD`. -/
def resolveRelativeRef (st : RefStore) (ref : List Char) :
    Except RepoError (List Char) :=
  match st.head with
  | none => Except.error RepoError.keyError
  | some cur => resolveRelAux st ref cur (ref.drop 4)

/-- Resolution steps 3-6 of `_resolve_ref` (`core/repository.py`, lines
103-132): `refs/heads`, `refs/tags`, `refs/remotes`, the `HEAD` special
case, relative refs, and finally `RefNotFoundError(ref)`. -/
def resolveRefTail (st : RefStore) (ref : List Char) :
    Except RepoError (List Char) :=
  match lookupRef st.heads ref with
  | some sha => Except.ok sha
  | none =>
    match lookupRef st.tags ref with
    | some sha => Except.ok sha
    | none =>
      match lookupRef st.remotes ref with
      | some sha => Except.ok sha
      | none =>
        if ref.map upperChar = "HEAD".toList then
          match st.head with
          | some h => Except.ok h
          | none => Except.error RepoError.keyError
        else if pfxOf "HEAD".toList ref then resolveRelativeRef st ref
        else Except.error (RepoError.refNotFoundError ref)

/-- `_resolve_ref` (`core/repository.py`, lines 59-132).  Step 1: a
40-character ref naming a commit object resolves to itself.  Step 2: a
ref of length at least 7 that is hexadecimal after lowercasing scans the
object store; exactly one commit match resolves, more than one raises
`RefNotFoundError` with the `is ambiguous` message, none falls through
to the remaining steps. -/
def resolveRef (st : RefStore) (ref : List Char) :
    Except RepoError (List Char) :=
  if decide (ref.length = 40) && isCommitObj (getObj st ref) then
    Except.ok ref
  else if decide (7 ≤ ref.length) && (ref.map lowerChar).all hexChar then
    match shortMatches st (ref.map lowerChar) with
    | [] => resolveRefTail st ref
    | [m] => Except.ok m
    | m1 :: m2 :: rest =>
      Except.error (RepoError.refNotFoundError
        (ambiguousMessage ref (m1 :: m2 :: rest).length))
  else resolveRefTail st ref

/-- Two distinct 40-character commit shas sharing the 7-character prefix
`aaaaaaa`. -/
def shaA1 : List Char :=
  "aaaaaaa".toList ++ List.replicate 33 (Char.ofNat 98)

/-- Companion sha for the ambiguity example. -/
def shaA2 : List Char :=
  "aaaaaaa".toList ++ List.replicate 33 (Char.ofNat 99)

/-- A store holding two commits whose shas share a 7-hex prefix. -/
def ambigStore : RefStore :=
  ⟨[(shaA1, StoreObj.commit []), (shaA2, StoreObj.commit [shaA1])],
    [], [], [], some shaA2⟩

/-!
### C1: uniform-result success flag

`to_simulation_result` sets `success := not has_conflicts`, i.e. success
holds exactly when the aggregated conflict list is *empty* — not merely
free of CERTAIN conflicts.  A rebase simulation whose only predicted
conflict is the LIKELY rename/modify conflict refutes the claim as stated.
-/

/-- A target-side RENAME of `a.txt` to `b.txt`. -/
def ourRenameExample : FileChange :=
  { path := "b.txt", change_type := ChangeType.RENAME, old_path := some "a.txt" }

/-- An incoming MODIFY of `a.txt`. -/
def theirModifyExample : FileChange :=
  { path := "a.txt", change_type := ChangeType.MODIFY, hunks := [hunkA13] }

/-- A commit record used by the concrete simulations. -/
def commitC1 : CommitInfo :=
  { sha := "c1", message := "change a.txt", author := "dev",
    author_email := "dev@example.com", timestamp := 1, parent_shas := ["c0"],
    tree_sha := "t1" }

/-- A rebase simulation whose single step predicts exactly the conflicts the
detector reports for the rename/modify scenario (one LIKELY conflict, no
CERTAIN conflict). -/
def rebaseSimLikely : RebaseSimulation :=
  { source_branch := "feature", target_branch := "main", onto_sha := "o1",
    merge_base_sha := "b1",
    steps := [{ original_sha := "c1", commit_info := commitC1,
                new_sha := some "n1",
                conflicts := detectConflicts [ourRenameExample] [theirModifyExample] }] }

/-- A concrete HARD reset discarding one file. -/
def hardResetExample : ResetSimulation :=
  { target_sha := "t", mode := ResetMode.HARD, current_sha := "c",
    files_discarded := ["f.txt"] }

/-- Concrete rebase environment for the witnesses: the identity patch-id,
no file changes, a constant non-empty hash. -/
def rebaseEnvExample : RebaseEnv :=
  { patchId := fun s => s, getChanges := fun _ => [], sha1hex := fun _ => "x" }

/-- Concrete cherry-pick environment for the witness: every ref resolves to
`commitC1`, walks yield `[commitC1]` (so the picked commit is already in
the target history), and the hash is a constant non-empty string. -/
def pickEnvExample : PickEnv :=
  { getCommit := fun _ => some commitC1
    walkCommits := fun _ _ _ => [commitC1]
    getCommitChanges := fun _ => []
    buildGraph := fun _ _ => {}
    headBranch := none
    sha1hex := fun _ => "x" }

/-- A second concrete commit, used as a merge target tip. -/
def commitT2 : CommitInfo :=
  { sha := "t2", message := "tgt tip", author := "dev",
    author_email := "dev@example.com", timestamp := 5, parent_shas := [],
    tree_sha := "tt" }

/-- Concrete merge environment: the merge base equals the target tip, so a
merge without `no_ff` fast-forwards. -/
def mergeEnvExample : MergeEnv :=
  { getCommit := fun r =>
      if r = "src" then some commitC1
      else if r = "tgt" then some commitT2
      else none
    findMergeBase := fun _ _ => some "t2"
    walkCommits := fun _ _ _ => []
    getCommitChanges := fun _ => []
    buildGraph := fun _ _ => {}
    headBranch := none
    sha1hex := fun _ => "x" }

/-- A concrete well-formed unified diff as its list of lines, ending
with the empty line that splitting the differ's newline-terminated
output on `\n` always produces. -/
def wfDiffExample : List (List Char) :=
  ["diff --git a/x b/x".toList, "index 1234..5678".toList,
   "--- a/x".toList, "+++ b/x".toList, "@@ -1 +1 @@".toList,
   "+hello".toList, "".toList]

/-!
### C3: hunk-overlap threshold
-/

theorem findOverlappingHunks_singleton (A B : DiffHunk) :
    findOverlappingHunks [A] [B] =
      if A.old_range.1 ≤ B.old_range.2 + ADJACENCY_THRESHOLD ∧
         B.old_range.1 ≤ A.old_range.2 + ADJACENCY_THRESHOLD then
        [(A.old_range, B.old_range)]
      else [] := by
  by_cases h : A.old_range.1 ≤ B.old_range.2 + ADJACENCY_THRESHOLD ∧
      B.old_range.1 ≤ A.old_range.2 + ADJACENCY_THRESHOLD <;>
    simp [findOverlappingHunks, h]

/-- C3.  With old ranges `[a0, a1) = [old_start, old_start + old_count)`,
the detector reports hunks `A` and `B` as overlapping exactly when
`a0 ≤ b1 + 3` and `b0 ≤ a1 + 3`; a gap of exactly 3 lines between the two
ranges is reported as an overlap and a gap of 4 lines is not. -/
theorem hunk_overlap_iff_within_threshold (A B : DiffHunk) :
    (findOverlappingHunks [A] [B] ≠ [] ↔
      (A.old_range.1 ≤ B.old_range.2 + 3 ∧ B.old_range.1 ≤ A.old_range.2 + 3)) ∧
    (B.old_range.1 = A.old_range.2 + 3 → findOverlappingHunks [A] [B] ≠ []) ∧
    (B.old_range.1 = A.old_range.2 + 4 → findOverlappingHunks [A] [B] = []) := by
  have hrange1 : A.old_range.1 ≤ A.old_range.2 := by
    simp [DiffHunk.old_range]
  have hrange2 : B.old_range.1 ≤ B.old_range.2 := by
    simp [DiffHunk.old_range]
  refine ⟨?_, ?_, ?_⟩
  · rw [findOverlappingHunks_singleton]
    by_cases h : A.old_range.1 ≤ B.old_range.2 + ADJACENCY_THRESHOLD ∧
        B.old_range.1 ≤ A.old_range.2 + ADJACENCY_THRESHOLD
    · simp only [ADJACENCY_THRESHOLD] at h
      simp [h, ADJACENCY_THRESHOLD]
    · simp only [ADJACENCY_THRESHOLD] at h
      simp [h, ADJACENCY_THRESHOLD]
  · intro hgap
    rw [findOverlappingHunks_singleton]
    have : A.old_range.1 ≤ B.old_range.2 + ADJACENCY_THRESHOLD ∧
        B.old_range.1 ≤ A.old_range.2 + ADJACENCY_THRESHOLD := by
      simp only [ADJACENCY_THRESHOLD]
      omega
    simp [this]
  · intro hgap
    rw [findOverlappingHunks_singleton]
    have : ¬ (A.old_range.1 ≤ B.old_range.2 + ADJACENCY_THRESHOLD ∧
        B.old_range.1 ≤ A.old_range.2 + ADJACENCY_THRESHOLD) := by
      simp [ADJACENCY_THRESHOLD]
      intro
      omega
    simp [this]

/-- C3 witness: concrete hunks at the gap-3 and gap-4 boundaries. -/
theorem hunk_overlap_iff_within_threshold_witness :
    findOverlappingHunks [hunkA13] [hunkB67] ≠ [] ∧
    findOverlappingHunks [hunkA13] [hunkB78] = [] :=
  ⟨(hunk_overlap_iff_within_threshold hunkA13 hunkB67).2.1 (by decide),
   (hunk_overlap_iff_within_threshold hunkA13 hunkB78).2.2 (by decide)⟩

/-!
### C8: reset safety classification
-/

/-- C8.  On uniform-result conversion of a reset simulation the danger level
is HIGH for a HARD reset with discarded files, MEDIUM for a HARD reset with
none, MEDIUM for a non-HARD reset detaching commits and LOW otherwise, and
the reversible flag is false exactly for HARD resets. -/
theorem reset_safety_classification (s : ResetSimulation) :
    ∃ si, (s.to_simulation_result).safety_info = some si ∧
      (s.mode = ResetMode.HARD → s.files_discarded ≠ [] →
        si.danger_level = DangerLevel.HIGH) ∧
      (s.mode = ResetMode.HARD → s.files_discarded = [] →
        si.danger_level = DangerLevel.MEDIUM) ∧
      (s.mode ≠ ResetMode.HARD → s.commits_detached ≠ [] →
        si.danger_level = DangerLevel.MEDIUM) ∧
      (s.mode ≠ ResetMode.HARD → s.commits_detached = [] →
        si.danger_level = DangerLevel.LOW) ∧
      (si.reversible = false ↔ s.mode = ResetMode.HARD) := by
  refine ⟨_, rfl, ?_⟩
  cases hm : s.mode <;>
    by_cases hd : s.files_discarded = [] <;>
    by_cases hc : s.commits_detached = [] <;>
    simp [ResetSimulation.to_simulation_result, hm, hd, hc]

/-!
### C9: conflict-detector symmetry

`detect_conflicts(A, B)` and `detect_conflicts(B, A)` report the same set
of `(path, severity)` pairs.  We characterise membership in each of the
three passes of `detect_conflicts` and observe that each characterisation
is symmetric in the two change lists.
-/

theorem lastByPath_isSome_iff (changes : List FileChange) (p : String) :
    (lastByPath changes p).isSome ↔ ∃ fc ∈ changes, fc.path = p := by
  simp [lastByPath, List.find?_isSome]

theorem lastByPath_path {changes : List FileChange} {p : String} {fc : FileChange}
    (h : lastByPath changes p = some fc) : fc.path = p := by
  have := List.find?_some h
  simpa using this

theorem lastByOldPath_isSome_iff (changes : List FileChange) (p : String) :
    (lastByOldPath changes p).isSome ↔ ∃ fc ∈ changes, fc.old_path = some p := by
  simp [lastByOldPath, List.find?_isSome]

theorem lastDeleted_isSome_iff (changes : List FileChange) (p : String) :
    (lastDeleted changes p).isSome ↔
      ∃ fc ∈ changes, fc.change_type = ChangeType.DELETE ∧ fc.path = p := by
  simp [lastDeleted, List.find?_isSome, List.mem_filter]
  aesop

theorem lastModified_isSome_iff (changes : List FileChange) (p : String) :
    (lastModified changes p).isSome ↔
      ∃ fc ∈ changes, (fc.change_type = ChangeType.MODIFY ∨
        fc.change_type = ChangeType.ADD) ∧ fc.path = p := by
  simp [lastModified, List.find?_isSome, List.mem_filter]
  aesop

theorem lastRenamed_isSome_iff (changes : List FileChange) (p : String) :
    (lastRenamed changes p).isSome ↔
      ∃ fc ∈ changes, fc.change_type = ChangeType.RENAME ∧ fc.old_path = some p := by
  simp [lastRenamed, List.find?_isSome, List.mem_filter]
  aesop

theorem mem_deletedPaths_iff (changes : List FileChange) (p : String) :
    p ∈ deletedPaths changes ↔
      ∃ fc ∈ changes, fc.change_type = ChangeType.DELETE ∧ fc.path = p := by
  simp [deletedPaths, List.mem_dedup, List.mem_filter]
  aesop

theorem mem_modifiedPaths_iff (changes : List FileChange) (p : String) :
    p ∈ modifiedPaths changes ↔
      ∃ fc ∈ changes, (fc.change_type = ChangeType.MODIFY ∨
        fc.change_type = ChangeType.ADD) ∧ fc.path = p := by
  simp [modifiedPaths, List.mem_dedup, List.mem_filter]
  aesop

theorem mem_oldPaths_iff (changes : List FileChange) (p : String) :
    p ∈ oldPaths changes ↔ ∃ fc ∈ changes, fc.old_path = some p := by
  simp [oldPaths, List.mem_dedup]

theorem mem_renamedOldPaths_iff (changes : List FileChange) (p : String) :
    p ∈ renamedOldPaths changes ↔
      ∃ fc ∈ changes, fc.change_type = ChangeType.RENAME ∧ fc.old_path = some p := by
  simp [renamedOldPaths, List.mem_dedup, List.mem_filter]
  aesop

theorem mem_strictModifyPaths_iff (changes : List FileChange) (p : String) :
    p ∈ strictModifyPaths changes ↔
      ∃ fc ∈ changes, fc.change_type = ChangeType.MODIFY ∧ fc.path = p := by
  simp [strictModifyPaths, List.mem_dedup, List.mem_filter]
  aesop

theorem mem_commonPaths_iff (our_changes their_changes : List FileChange) (p : String) :
    p ∈ commonPaths our_changes their_changes ↔
      (∃ fc ∈ our_changes, fc.path = p) ∧ (∃ fc ∈ their_changes, fc.path = p) := by
  simp [commonPaths, List.mem_dedup, List.mem_filter]

theorem mem_findOverlappingHunks (xs ys : List DiffHunk) (r1 r2 : Nat × Nat) :
    (r1, r2) ∈ findOverlappingHunks xs ys ↔
      ∃ oh ∈ xs, ∃ th ∈ ys, oh.old_range = r1 ∧ th.old_range = r2 ∧
        r1.1 ≤ r2.2 + ADJACENCY_THRESHOLD ∧
        r2.1 ≤ r1.2 + ADJACENCY_THRESHOLD := by
  simp only [findOverlappingHunks, List.mem_flatMap, List.mem_filterMap]
  constructor
  · rintro ⟨oh, hoh, th, hth, hr⟩
    split at hr
    · rename_i hc
      simp only [Option.some.injEq, Prod.mk.injEq] at hr
      obtain ⟨e1, e2⟩ := hr
      subst e1
      subst e2
      exact ⟨oh, hoh, th, hth, rfl, rfl, hc.1, hc.2⟩
    · exact absurd hr (by simp)
  · rintro ⟨oh, hoh, th, hth, e1, e2, h3, h4⟩
    subst e1
    subst e2
    exact ⟨oh, hoh, th, hth, by simp [h3, h4]⟩

theorem findOverlappingHunks_eq_nil_swap (xs ys : List DiffHunk) :
    findOverlappingHunks xs ys = [] ↔ findOverlappingHunks ys xs = [] := by
  simp only [List.eq_nil_iff_forall_not_mem]
  constructor <;> intro h p hp <;> rcases p with ⟨r1, r2⟩ <;>
    rw [mem_findOverlappingHunks] at hp <;>
    obtain ⟨oh, hoh, th, hth, e1, e2, h3, h4⟩ := hp <;>
    exact h (r2, r1) ((mem_findOverlappingHunks _ _ _ _).mpr
      ⟨th, hth, oh, hoh, e2, e1, h4, h3⟩)

theorem classifyOverlapSeverity_symm (xs ys : List DiffHunk) :
    classifyOverlapSeverity xs ys (findOverlappingHunks xs ys) =
    classifyOverlapSeverity ys xs (findOverlappingHunks ys xs) := by
  have h : ((findOverlappingHunks xs ys).any (fun p =>
        decide (changesByRange xs p.1 ≠ changesByRange ys p.2)) = true) ↔
      ((findOverlappingHunks ys xs).any (fun p =>
        decide (changesByRange ys p.1 ≠ changesByRange xs p.2)) = true) := by
    simp only [List.any_eq_true, decide_eq_true_eq]
    constructor
    · rintro ⟨⟨r1, r2⟩, hmem, hne⟩
      rw [mem_findOverlappingHunks] at hmem
      obtain ⟨oh, hoh, th, hth, e1, e2, h3, h4⟩ := hmem
      refine ⟨(r2, r1), (mem_findOverlappingHunks _ _ _ _).mpr
        ⟨th, hth, oh, hoh, e2, e1, h4, h3⟩, ?_⟩
      exact fun hc => hne hc.symm
    · rintro ⟨⟨r1, r2⟩, hmem, hne⟩
      rw [mem_findOverlappingHunks] at hmem
      obtain ⟨oh, hoh, th, hth, e1, e2, h3, h4⟩ := hmem
      refine ⟨(r2, r1), (mem_findOverlappingHunks _ _ _ _).mpr
        ⟨th, hth, oh, hoh, e2, e1, h4, h3⟩, ?_⟩
      exact fun hc => hne hc.symm
  simp only [classifyOverlapSeverity]
  by_cases hb : ((findOverlappingHunks xs ys).any (fun p =>
      decide (changesByRange xs p.1 ≠ changesByRange ys p.2)) = true)
  · rw [if_pos hb, if_pos (h.mp hb)]
  · rw [if_neg hb, if_neg (fun hc => hb (h.mpr hc))]

/-- Every conflict produced by `_analyze_file_conflict` carries the path it
was asked about. -/
theorem analyzeFileConflict_path {p : String} {o t : FileChange}
    {c : PotentialConflict} (h : analyzeFileConflict p o t = some c) :
    c.path = p := by
  unfold analyzeFileConflict at h
  split_ifs at h <;>
    first
      | exact Option.noConfusion h
      | (injection h with h2
         rw [← h2])

/-- Presence and severity of the per-path analysis are symmetric in the two
sides. -/
theorem analyzeFileConflict_symm (p : String) (o t : FileChange) :
    (analyzeFileConflict p o t).map (fun c => c.severity) =
    (analyzeFileConflict p t o).map (fun c => c.severity) := by
  cases ho : o.change_type <;> cases ht : t.change_type <;>
    simp only [analyzeFileConflict, ho, ht] <;>
    try simp
  case ADD.ADD =>
    by_cases hsha : o.new_sha = t.new_sha
    · simp [hsha]
    · rw [if_neg hsha, if_neg (fun hc => hsha hc.symm)]
      simp
  all_goals
    by_cases h12 : o.hunks = [] ∨ t.hunks = []
  all_goals try
    (rw [if_pos h12, if_pos (Or.symm h12)]
     simp)
  all_goals
    (rw [if_neg h12, if_neg (fun hc => h12 (Or.symm hc))]
     by_cases hov : findOverlappingHunks o.hunks t.hunks = []
     · rw [if_pos hov, if_pos ((findOverlappingHunks_eq_nil_swap o.hunks t.hunks).mp hov)]
     · rw [if_neg hov, if_neg (fun hc => hov
         ((findOverlappingHunks_eq_nil_swap o.hunks t.hunks).mpr hc))]
       simp [classifyOverlapSeverity_symm o.hunks t.hunks])

theorem mem_commonPathConflicts_iff (A B : List FileChange) (p : String)
    (s : ConflictSeverity) :
    (∃ c ∈ commonPathConflicts A B, c.path = p ∧ c.severity = s) ↔
      ∃ o, lastByPath A p = some o ∧ ∃ t, lastByPath B p = some t ∧
        (analyzeFileConflict p o t).map (fun c => c.severity) = some s := by
  constructor
  · rintro ⟨c, hc, hpath, hsev⟩
    rw [commonPathConflicts, List.mem_filterMap] at hc
    obtain ⟨q, hq, hf⟩ := hc
    rcases hoq : lastByPath A q with _ | o
    · rw [hoq] at hf
      exact absurd hf (by simp)
    rcases htq : lastByPath B q with _ | t
    · rw [hoq, htq] at hf
      exact absurd hf (by simp)
    rw [hoq, htq] at hf
    have hqp : q = p := by
      rw [← hpath]
      exact (analyzeFileConflict_path hf).symm
    subst hqp
    refine ⟨o, hoq, t, htq, ?_⟩
    rw [show analyzeFileConflict q o t = some c from hf]
    simpa using hsev
  · rintro ⟨o, ho, t, ht, hmap⟩
    rcases hana : analyzeFileConflict p o t with _ | c
    · rw [hana] at hmap
      exact absurd hmap (by simp)
    rw [hana] at hmap
    simp only [Option.map_some', Option.some.injEq] at hmap
    refine ⟨c, ?_, analyzeFileConflict_path hana, hmap⟩
    rw [commonPathConflicts, List.mem_filterMap]
    refine ⟨p, ?_, ?_⟩
    · rw [mem_commonPaths_iff]
      exact ⟨(lastByPath_isSome_iff A p).mp (by rw [ho]; rfl),
        (lastByPath_isSome_iff B p).mp (by rw [ht]; rfl)⟩
    · rw [ho, ht]
      exact hana

theorem mem_detectDeleteModifyConflicts_iff (A B : List FileChange) (p : String)
    (s : ConflictSeverity) :
    (∃ c ∈ detectDeleteModifyConflicts A B, c.path = p ∧ c.severity = s) ↔
      s = ConflictSeverity.CERTAIN ∧
      (((∃ fc ∈ A, fc.change_type = ChangeType.DELETE ∧ fc.path = p) ∧
        (∃ fc ∈ B, (fc.change_type = ChangeType.MODIFY ∨
          fc.change_type = ChangeType.ADD) ∧ fc.path = p)) ∨
       ((∃ fc ∈ B, fc.change_type = ChangeType.DELETE ∧ fc.path = p) ∧
        (∃ fc ∈ A, (fc.change_type = ChangeType.MODIFY ∨
          fc.change_type = ChangeType.ADD) ∧ fc.path = p))) := by
  constructor
  · rintro ⟨c, hc, hpath, hsev⟩
    rw [detectDeleteModifyConflicts, List.mem_append] at hc
    rcases hc with hc | hc <;>
      (rw [List.mem_filterMap] at hc
       obtain ⟨q, hq, hf⟩ := hc
       rw [List.mem_filter] at hq)
    · rcases hdq : lastDeleted A q with _ | o
      · rw [hdq] at hf
        exact absurd hf (by simp)
      rcases hmq : lastModified B q with _ | t
      · rw [hdq, hmq] at hf
        exact absurd hf (by simp)
      rw [hdq, hmq] at hf
      injection hf with hf
      have hqp : q = p := by rw [← hpath, ← hf]
      subst hqp
      refine ⟨by rw [← hsev, ← hf], Or.inl ⟨?_, ?_⟩⟩
      · exact (mem_deletedPaths_iff A q).mp hq.1
      · exact (mem_modifiedPaths_iff B q).mp (by simpa using hq.2)
    · rcases hdq : lastDeleted B q with _ | t
      · rw [hdq] at hf
        simp at hf
      rcases hmq : lastModified A q with _ | o
      · rw [hdq, hmq] at hf
        simp at hf
      rw [hdq, hmq] at hf
      injection hf with hf
      have hqp : q = p := by rw [← hpath, ← hf]
      subst hqp
      refine ⟨by rw [← hsev, ← hf], Or.inr ⟨?_, ?_⟩⟩
      · exact (mem_deletedPaths_iff B q).mp hq.1
      · exact (mem_modifiedPaths_iff A q).mp (by simpa using hq.2)
  · rintro ⟨hs, h | h⟩ <;> subst hs
    · obtain ⟨hdel, hmod⟩ := h
      have h1 : (lastDeleted A p).isSome := (lastDeleted_isSome_iff A p).mpr hdel
      have h2 : (lastModified B p).isSome := (lastModified_isSome_iff B p).mpr hmod
      rcases ho : lastDeleted A p with _ | o
      · rw [ho] at h1
        simp at h1
      rcases ht : lastModified B p with _ | t
      · rw [ht] at h2
        simp at h2
      refine ⟨⟨p, ConflictSeverity.CERTAIN,
        "File '" ++ p ++ "' deleted on target but modified in commit",
        some o, some t, []⟩, ?_, rfl, rfl⟩
      rw [detectDeleteModifyConflicts, List.mem_append]
      left
      rw [List.mem_filterMap]
      refine ⟨p, ?_, by rw [ho, ht]⟩
      rw [List.mem_filter]
      exact ⟨(mem_deletedPaths_iff A p).mpr hdel,
        by simpa using (mem_modifiedPaths_iff B p).mpr hmod⟩
    · obtain ⟨hdel, hmod⟩ := h
      have h1 : (lastDeleted B p).isSome := (lastDeleted_isSome_iff B p).mpr hdel
      have h2 : (lastModified A p).isSome := (lastModified_isSome_iff A p).mpr hmod
      rcases ht : lastDeleted B p with _ | t
      · rw [ht] at h1
        simp at h1
      rcases ho : lastModified A p with _ | o
      · rw [ho] at h2
        simp at h2
      refine ⟨⟨p, ConflictSeverity.CERTAIN,
        "File '" ++ p ++ "' modified on target but deleted in commit",
        some o, some t, []⟩, ?_, rfl, rfl⟩
      rw [detectDeleteModifyConflicts, List.mem_append]
      right
      rw [List.mem_filterMap]
      refine ⟨p, ?_, by rw [ho, ht]⟩
      rw [List.mem_filter]
      exact ⟨(mem_deletedPaths_iff B p).mpr hdel,
        by simpa using (mem_modifiedPaths_iff A p).mpr hmod⟩

theorem mem_detectRenameConflicts_iff (A B : List FileChange) (p : String)
    (s : ConflictSeverity) :
    (∃ c ∈ detectRenameConflicts A B, c.path = p ∧ c.severity = s) ↔
      (s = ConflictSeverity.CERTAIN ∧
        ∃ o, lastByOldPath A p = some o ∧ ∃ t, lastByOldPath B p = some t ∧
          o.path ≠ t.path) ∨
      (s = ConflictSeverity.LIKELY ∧
        (((∃ fc ∈ A, fc.change_type = ChangeType.RENAME ∧ fc.old_path = some p) ∧
          (∃ fc ∈ B, fc.change_type = ChangeType.MODIFY ∧ fc.path = p)) ∨
         ((∃ fc ∈ B, fc.change_type = ChangeType.RENAME ∧ fc.old_path = some p) ∧
          (∃ fc ∈ A, fc.change_type = ChangeType.MODIFY ∧ fc.path = p)))) := by
  constructor
  · rintro ⟨c, hc, hpath, hsev⟩
    rw [detectRenameConflicts, List.mem_append] at hc
    rcases hc with hc12 | hc3
    rw [List.mem_append] at hc12
    rcases hc12 with hc | hc
    · rw [List.mem_filterMap] at hc
      obtain ⟨q, hq, hf⟩ := hc
      rw [List.mem_filter] at hq
      rcases hoq : lastByOldPath A q with _ | o
      · rw [hoq] at hf
        simp at hf
      rcases htq : lastByOldPath B q with _ | t
      · rw [hoq, htq] at hf
        simp at hf
      rw [hoq, htq] at hf
      by_cases hne : o.path = t.path
      · simp [hne] at hf
      · simp only [ne_eq, hne, not_false_iff, if_true] at hf
        injection hf with hf
        have hcp : c.path = q := by rw [← hf]
        have hcs : c.severity = ConflictSeverity.CERTAIN := by rw [← hf]
        have hqp : q = p := by rw [← hpath, hcp]
        subst hqp
        exact Or.inl ⟨by rw [← hsev, hcs], o, hoq, t, htq, hne⟩
    · rw [List.mem_filterMap] at hc
      obtain ⟨q, hq, hf⟩ := hc
      rw [List.mem_filter] at hq
      rcases hoq : lastRenamed A q with _ | o
      · rw [hoq] at hf
        simp at hf
      rcases htq : B.find? (fun fc => fc.path = q) with _ | t
      · rw [hoq, htq] at hf
        simp at hf
      rw [hoq, htq] at hf
      injection hf with hf
      have hcp : c.path = q := by rw [← hf]
      have hcs : c.severity = ConflictSeverity.LIKELY := by rw [← hf]
      have hqp : q = p := by rw [← hpath, hcp]
      subst hqp
      refine Or.inr ⟨by rw [← hsev, hcs], Or.inl ⟨?_, ?_⟩⟩
      · exact (mem_renamedOldPaths_iff A q).mp hq.1
      · exact (mem_strictModifyPaths_iff B q).mp (by simpa using hq.2)
    · rw [List.mem_filterMap] at hc3
      obtain ⟨q, hq, hf⟩ := hc3
      rw [List.mem_filter] at hq
      rcases hoq : A.find? (fun fc => fc.path = q) with _ | o
      · rw [hoq] at hf
        simp at hf
      rcases htq : lastRenamed B q with _ | t
      · rw [hoq, htq] at hf
        simp at hf
      rw [hoq, htq] at hf
      injection hf with hf
      have hcp : c.path = q := by rw [← hf]
      have hcs : c.severity = ConflictSeverity.LIKELY := by rw [← hf]
      have hqp : q = p := by rw [← hpath, hcp]
      subst hqp
      refine Or.inr ⟨by rw [← hsev, hcs], Or.inr ⟨?_, ?_⟩⟩
      · exact (mem_renamedOldPaths_iff B q).mp hq.1
      · exact (mem_strictModifyPaths_iff A q).mp (by simpa using hq.2)
  · rintro (⟨hs, o, ho, t, ht, hne⟩ | ⟨hs, h | h⟩) <;> subst hs
    · refine ⟨⟨p, ConflictSeverity.CERTAIN,
        "File '" ++ p ++ "' renamed to '" ++ o.path ++
          "' on target but renamed to '" ++ t.path ++ "' in commit",
        some o, some t, []⟩, ?_, rfl, rfl⟩
      rw [detectRenameConflicts, List.mem_append]
      left
      rw [List.mem_append]
      left
      rw [List.mem_filterMap]
      refine ⟨p, ?_, ?_⟩
      · rw [List.mem_filter]
        have hA : p ∈ oldPaths A := (mem_oldPaths_iff A p).mpr
          ((lastByOldPath_isSome_iff A p).mp (by rw [ho]; rfl))
        have hB : p ∈ oldPaths B := (mem_oldPaths_iff B p).mpr
          ((lastByOldPath_isSome_iff B p).mp (by rw [ht]; rfl))
        exact ⟨hA, by simpa using hB⟩
      · rw [ho, ht]
        simp only [if_pos hne]
    · obtain ⟨hren, hmod⟩ := h
      have h1 : (lastRenamed A p).isSome := (lastRenamed_isSome_iff A p).mpr hren
      have h2 : (B.find? (fun fc => fc.path = p)).isSome := by
        rw [List.find?_isSome]
        obtain ⟨fc, hfc, _, hfp⟩ := hmod
        exact ⟨fc, hfc, by simp [hfp]⟩
      rcases ho : lastRenamed A p with _ | o
      · rw [ho] at h1
        simp at h1
      rcases ht : B.find? (fun fc => fc.path = p) with _ | t
      · rw [ht] at h2
        simp at h2
      refine ⟨⟨p, ConflictSeverity.LIKELY,
        "File '" ++ p ++ "' renamed to '" ++ o.path ++
          "' on target but modified in commit",
        some o, some t, []⟩, ?_, rfl, rfl⟩
      rw [detectRenameConflicts, List.mem_append]
      left
      rw [List.mem_append]
      right
      rw [List.mem_filterMap]
      refine ⟨p, ?_, by rw [ho, ht]⟩
      rw [List.mem_filter]
      exact ⟨(mem_renamedOldPaths_iff A p).mpr hren,
        by simpa using (mem_strictModifyPaths_iff B p).mpr hmod⟩
    · obtain ⟨hren, hmod⟩ := h
      have h1 : (lastRenamed B p).isSome := (lastRenamed_isSome_iff B p).mpr hren
      have h2 : (A.find? (fun fc => fc.path = p)).isSome := by
        rw [List.find?_isSome]
        obtain ⟨fc, hfc, _, hfp⟩ := hmod
        exact ⟨fc, hfc, by simp [hfp]⟩
      rcases ht : lastRenamed B p with _ | t
      · rw [ht] at h1
        simp at h1
      rcases ho : A.find? (fun fc => fc.path = p) with _ | o
      · rw [ho] at h2
        simp at h2
      refine ⟨⟨p, ConflictSeverity.LIKELY,
        "File '" ++ p ++ "' modified on target but renamed to '" ++
          t.path ++ "' in commit",
        some o, some t, []⟩, ?_, rfl, rfl⟩
      rw [detectRenameConflicts, List.mem_append]
      right
      rw [List.mem_filterMap]
      refine ⟨p, ?_, by rw [ho, ht]⟩
      rw [List.mem_filter]
      exact ⟨(mem_renamedOldPaths_iff B p).mpr hren,
        by simpa using (mem_strictModifyPaths_iff A p).mpr hmod⟩

/-- C9.  The conflict detector is symmetric: `detect_conflicts(A, B)` and
`detect_conflicts(B, A)` report conflicts on the same set of paths with the
same severity per path (descriptions and our/their roles may swap). -/
theorem detect_conflicts_symmetric (A B : List FileChange) (p : String)
    (s : ConflictSeverity) :
    (∃ c ∈ detectConflicts A B, c.path = p ∧ c.severity = s) ↔
    (∃ c ∈ detectConflicts B A, c.path = p ∧ c.severity = s) := by
  have key : ∀ X Y : List FileChange,
      (∃ c ∈ detectConflicts X Y, c.path = p ∧ c.severity = s) ↔
        ((∃ o, lastByPath X p = some o ∧ ∃ t, lastByPath Y p = some t ∧
          (analyzeFileConflict p o t).map (fun c => c.severity) = some s) ∨
         (s = ConflictSeverity.CERTAIN ∧
          (((∃ fc ∈ X, fc.change_type = ChangeType.DELETE ∧ fc.path = p) ∧
            (∃ fc ∈ Y, (fc.change_type = ChangeType.MODIFY ∨
              fc.change_type = ChangeType.ADD) ∧ fc.path = p)) ∨
           ((∃ fc ∈ Y, fc.change_type = ChangeType.DELETE ∧ fc.path = p) ∧
            (∃ fc ∈ X, (fc.change_type = ChangeType.MODIFY ∨
              fc.change_type = ChangeType.ADD) ∧ fc.path = p)))) ∨
         ((s = ConflictSeverity.CERTAIN ∧
            ∃ o, lastByOldPath X p = some o ∧ ∃ t, lastByOldPath Y p = some t ∧
              o.path ≠ t.path) ∨
          (s = ConflictSeverity.LIKELY ∧
            (((∃ fc ∈ X, fc.change_type = ChangeType.RENAME ∧
                fc.old_path = some p) ∧
              (∃ fc ∈ Y, fc.change_type = ChangeType.MODIFY ∧ fc.path = p)) ∨
             ((∃ fc ∈ Y, fc.change_type = ChangeType.RENAME ∧
                fc.old_path = some p) ∧
              (∃ fc ∈ X, fc.change_type = ChangeType.MODIFY ∧ fc.path = p)))))) := by
    intro X Y
    rw [← mem_commonPathConflicts_iff, ← mem_detectDeleteModifyConflicts_iff,
      ← mem_detectRenameConflicts_iff]
    simp only [detectConflicts, List.mem_append]
    constructor
    · rintro ⟨c, (hc | hc) | hc, hp⟩
      · exact Or.inl ⟨c, hc, hp⟩
      · exact Or.inr (Or.inl ⟨c, hc, hp⟩)
      · exact Or.inr (Or.inr ⟨c, hc, hp⟩)
    · rintro (⟨c, hc, hp⟩ | ⟨c, hc, hp⟩ | ⟨c, hc, hp⟩)
      · exact ⟨c, Or.inl (Or.inl hc), hp⟩
      · exact ⟨c, Or.inl (Or.inr hc), hp⟩
      · exact ⟨c, Or.inr hc, hp⟩
  rw [key A B, key B A]
  constructor
  · rintro (⟨o, ho, t, ht, hmap⟩ | ⟨hs, h⟩ | ⟨hs, o, ho, t, ht, hne⟩ | ⟨hs, h⟩)
    · exact Or.inl ⟨t, ht, o, ho, by rw [← analyzeFileConflict_symm]; exact hmap⟩
    · exact Or.inr (Or.inl ⟨hs, h.symm⟩)
    · exact Or.inr (Or.inr (Or.inl ⟨hs, t, ht, o, ho, fun hc => hne hc.symm⟩))
    · exact Or.inr (Or.inr (Or.inr ⟨hs, h.symm⟩))
  · rintro (⟨o, ho, t, ht, hmap⟩ | ⟨hs, h⟩ | ⟨hs, o, ho, t, ht, hne⟩ | ⟨hs, h⟩)
    · exact Or.inl ⟨t, ht, o, ho, by rw [← analyzeFileConflict_symm]; exact hmap⟩
    · exact Or.inr (Or.inl ⟨hs, h.symm⟩)
    · exact Or.inr (Or.inr (Or.inl ⟨hs, t, ht, o, ho, fun hc => hne hc.symm⟩))
    · exact Or.inr (Or.inr (Or.inr ⟨hs, h.symm⟩))

/-- C1 counterexample: a simulation whose aggregated conflicts contain no
CERTAIN conflict, yet whose uniform result has `success = false` (the code
requires the conflict list to be empty, not CERTAIN-free). -/
theorem uniform_success_counterexample :
    (rebaseSimLikely.to_simulation_result).conflicts.all
        (fun c => ! c.is_certain) = true ∧
    (rebaseSimLikely.to_simulation_result).success = false := by
  decide

/-- C1 amended.  On uniform-result conversion, `success` is true iff the
aggregated conflict list is empty (for rebase the aggregated list is the
concatenation of the per-step conflicts; a reset conversion always succeeds
with an empty conflict list), and `conflict_count` equals the length of the
aggregated conflict list. -/
theorem uniform_result_success_amended :
    (∀ s : RebaseSimulation,
      ((s.to_simulation_result).success = true ↔
        (s.to_simulation_result).conflicts = []) ∧
      (s.to_simulation_result).conflicts =
        (s.steps.map (fun st => st.conflicts)).flatten ∧
      (s.to_simulation_result).conflict_count =
        (s.to_simulation_result).conflicts.length) ∧
    (∀ r : ResetSimulation,
      (r.to_simulation_result).success = true ∧
      (r.to_simulation_result).conflicts = [] ∧
      (r.to_simulation_result).conflict_count =
        (r.to_simulation_result).conflicts.length) := by
  constructor
  · intro s
    refine ⟨?_, rfl, rfl⟩
    simp [RebaseSimulation.to_simulation_result, RebaseSimulation.has_conflicts,
      List.any_eq_true, List.eq_nil_iff_forall_not_mem, List.mem_flatten,
      List.mem_map]
    aesop
  · intro r
    exact ⟨rfl, rfl, rfl⟩

/-- C8 witness: a concrete HARD reset discarding a file is classified
HIGH and irreversible. -/
theorem reset_safety_classification_witness :
    ∃ si, ((hardResetExample.to_simulation_result).safety_info = some si ∧
      si.danger_level = DangerLevel.HIGH ∧ si.reversible = false) := by
  obtain ⟨si, h1, h2, _, _, _, h6⟩ := reset_safety_classification hardResetExample
  exact ⟨si, h1, h2 rfl (by decide), h6.mpr rfl⟩

/-!
### C2: rebase skip-determinism
-/

theorem simulateSteps_length (env : RebaseEnv) (pids : List String)
    (onto_sha : String) :
    ∀ (commits : List CommitInfo) (acc : List FileChange) (k : Nat),
      (simulateSteps env commits pids acc onto_sha k).length = commits.length := by
  intro commits
  induction commits with
  | nil => intro acc k; rfl
  | cons c rest ih =>
    intro acc k
    simp only [simulateSteps, List.length_cons]
    rw [ih]

theorem simulateSteps_spec (env : RebaseEnv) (pids : List String)
    (onto_sha : String) :
    ∀ (commits : List CommitInfo) (acc : List FileChange) (k : Nat)
      (i : Nat) (step : RebaseStep),
      (simulateSteps env commits pids acc onto_sha k)[i]? = some step →
      ∃ commit, commits[i]? = some commit ∧ step.commit_info = commit ∧
        (if env.patchId commit.sha ∈ pids then
          step.will_be_skipped = true ∧ step.new_sha = none ∧ step.conflicts = []
        else
          step.will_be_skipped = false ∧
          step.new_sha = some (generateSimulatedSha env commit onto_sha (k + i)) ∧
          step.conflicts = detectConflicts
            (acc ++ ((commits.take i).filter
              (fun c => ¬ env.patchId c.sha ∈ pids)).flatMap
              (fun c => env.getChanges c.sha))
            (env.getChanges commit.sha)) := by
  intro commits
  induction commits with
  | nil =>
    intro acc k i step h
    simp [simulateSteps] at h
  | cons c rest ih =>
    intro acc k i step h
    match i with
    | 0 =>
      simp only [simulateSteps, List.getElem?_cons_zero, Option.some.injEq] at h
      refine ⟨c, by simp, by rw [← h], ?_⟩
      by_cases hskip : env.patchId c.sha ∈ pids
      · rw [if_pos hskip]
        refine ⟨by rw [← h]; simp [hskip], by rw [← h]; simp [hskip], ?_⟩
        rw [← h]
        simp [hskip]
      · rw [if_neg hskip]
        refine ⟨by rw [← h]; simp [hskip], by rw [← h]; simp [hskip], ?_⟩
        rw [← h]
        simp [hskip]
    | Nat.succ j =>
      simp only [simulateSteps, List.getElem?_cons_succ] at h
      obtain ⟨commit, hcom, hci, hcond⟩ := ih _ (k + 1) j step h
      refine ⟨commit, by simpa using hcom, hci, ?_⟩
      by_cases hskip : env.patchId commit.sha ∈ pids
      · rw [if_pos hskip]
        rw [if_pos hskip] at hcond
        exact hcond
      · rw [if_neg hskip]
        rw [if_neg hskip] at hcond
        refine ⟨hcond.1, ?_, ?_⟩
        · rw [hcond.2.1, show k + 1 + j = k + (j + 1) from by omega]
        · rw [hcond.2.2]
          congr 1
          by_cases hc : env.patchId c.sha ∈ pids
          · simp [hc, List.take_succ_cons]
          · simp [hc, List.take_succ_cons, List.append_assoc]

/-- C2.  In `_simulate_steps`, a replay commit whose patch-id is in the
onto-range patch-id set is skipped: `will_be_skipped` is true, no new hash
is synthesized, the conflict list is empty, and the accumulated buffer is
not extended by its changes; a commit whose patch-id is not in the set gets
a non-empty synthesized hash and its conflicts are computed against the
onto changes extended by exactly the earlier non-skipped commits'
changes. -/
theorem rebase_skip_determinism (env : RebaseEnv) (commits : List CommitInfo)
    (pids : List String) (onto_changes : List FileChange) (onto_sha : String)
    (hsha : ∀ s, env.sha1hex s ≠ "") :
    (rebaseSimulateSteps env commits pids onto_changes onto_sha).length =
      commits.length ∧
    ∀ i step,
      (rebaseSimulateSteps env commits pids onto_changes onto_sha)[i]? =
        some step →
      ∃ commit, commits[i]? = some commit ∧ step.commit_info = commit ∧
        (if env.patchId commit.sha ∈ pids then
          step.will_be_skipped = true ∧ step.new_sha = none ∧ step.conflicts = []
        else
          step.will_be_skipped = false ∧
          (∃ h, step.new_sha = some h ∧ h ≠ "") ∧
          step.conflicts = detectConflicts
            (accBefore env pids onto_changes commits i)
            (env.getChanges commit.sha)) := by
  refine ⟨simulateSteps_length env pids onto_sha commits onto_changes 0, ?_⟩
  intro i step h
  obtain ⟨commit, hcom, hci, hcond⟩ :=
    simulateSteps_spec env pids onto_sha commits onto_changes 0 i step h
  refine ⟨commit, hcom, hci, ?_⟩
  by_cases hskip : env.patchId commit.sha ∈ pids
  · rw [if_pos hskip]
    rw [if_pos hskip] at hcond
    exact hcond
  · rw [if_neg hskip]
    rw [if_neg hskip] at hcond
    refine ⟨hcond.1, ⟨_, hcond.2.1, hsha _⟩, ?_⟩
    rw [hcond.2.2]
    rfl

/-- C2 witness: a concrete one-commit rebase whose patch-id is already in
the onto set produces a skipped step with no hash and no conflicts. -/
theorem rebase_skip_determinism_witness :
    ∃ step,
      ((rebaseSimulateSteps rebaseEnvExample [commitC1] ["c1"] [] "o1")[0]? =
        some step ∧
      step.will_be_skipped = true ∧ step.new_sha = none ∧
      step.conflicts = []) := by
  obtain ⟨hlen, hspec⟩ := rebase_skip_determinism rebaseEnvExample [commitC1]
    ["c1"] [] "o1" (fun s => by simp [rebaseEnvExample])
  obtain ⟨step, hstep⟩ :
      ∃ step, (rebaseSimulateSteps rebaseEnvExample [commitC1] ["c1"] []
        "o1")[0]? = some step := ⟨_, rfl⟩
  obtain ⟨commit, hcommit, hci, hcond⟩ := hspec 0 step hstep
  have hc1 : commitC1 = commit := by simpa using hcommit
  subst hc1
  rw [if_pos (by simp [rebaseEnvExample, commitC1])] at hcond
  exact ⟨step, hstep, hcond⟩

/-!
### C5: rebase command parsing
-/

/-- C5 counterexample: `rebase main --source feature` (and the `-s` form)
leaves the source at `"HEAD"`; the parser, contrary to the claim, does not
recognise `--source`/`-s`. -/
theorem parse_rebase_source_counterexample :
    parseRebaseCommand ["main", "--source", "feature"] =
      some { onto := "main", source := "HEAD" } ∧
    parseRebaseCommand ["main", "--source", "feature"] ≠
      some { onto := "main", source := "feature" } ∧
    parseRebaseCommand ["main", "-s", "feature"] =
      some { onto := "main", source := "HEAD" } := by
  decide

/-- C5 amended.  `_parse_rebase_command` recognises only `--onto`/`-o`;
a plain `rebase <onto>` yields the positional argument as the onto ref, the
source is always the default `"HEAD"` (for every successful parse), and the
unrecognised `--source`/`-s` flag is silently skipped with its argument
ignored. -/
theorem parse_rebase_amended :
    (∀ args cmd, parseRebaseCommand args = some cmd → cmd.source = "HEAD") ∧
    (∀ onto, ¬ pyStartsWith onto "-" →
      parseRebaseCommand [onto] = some { onto := onto, source := "HEAD" }) ∧
    (∀ onto flag ref, (flag = "--source" ∨ flag = "-s") →
      ¬ pyStartsWith onto "-" →
      parseRebaseCommand [onto, flag, ref] =
        some { onto := onto, source := "HEAD" }) := by
  have honto : ∀ o : String, ¬ pyStartsWith o "-" → ¬ (o = "--onto" ∨ o = "-o") := by
    rintro o ho (rfl | rfl)
    · exact ho (by decide)
    · exact ho (by decide)
  refine ⟨?_, ?_, ?_⟩
  · intro args cmd h
    unfold parseRebaseCommand at h
    rcases hgo : parseRebaseGo args none with _ | o <;> rw [hgo] at h
    · simp at h
    · injection h with h
      rw [← h]
  · intro onto hstart
    simp [parseRebaseCommand, parseRebaseGo, honto onto hstart, hstart]
  · rintro onto flag ref hflag hstart
    have h1 := honto onto hstart
    rcases hflag with rfl | rfl <;>
      (by_cases hr : ref = "--onto" ∨ ref = "-o"
       · simp [parseRebaseCommand, parseRebaseGo, h1, hstart, hr]
       · by_cases hr2 : pyStartsWith ref "-" <;>
           simp [parseRebaseCommand, parseRebaseGo, h1, hstart, hr, hr2])

/-- C5 witness: the amended behaviour at the concrete command
`rebase main --source feature`. -/
theorem parse_rebase_amended_witness :
    parseRebaseCommand ["main", "--source", "feature"] =
      some { onto := "main", source := "HEAD" } :=
  parse_rebase_amended.2.2 "main" "--source" "feature" (Or.inl rfl) (by decide)

/-!
### C10: cherry-pick never skips
-/

theorem mapM_eq_some_filterMap {α β : Type} (f : α → Option β) :
    ∀ (l : List α) (r : List β), l.mapM f = some r → l.filterMap f = r := by
  intro l
  induction l with
  | nil =>
    intro r h
    have h2 : ([] : List β) = r :=
      Option.some.inj ((show (List.mapM f [] : Option (List β)) = some [] from rfl) ▸ h)
    subst h2
    exact List.filterMap_nil f
  | cons a rest ih =>
    intro r h
    rw [List.mapM_cons] at h
    rcases ha : f a with _ | b <;> rw [ha] at h
    · simp at h
    · rcases hrest : rest.mapM f with _ | rs <;> rw [hrest] at h
      · simp at h
      · simp at h
        subst h
        simp [List.filterMap_cons, ha, ih rs hrest]

theorem mapM_eq_some_isSome {α β : Type} (f : α → Option β) :
    ∀ (l : List α) (r : List β), l.mapM f = some r →
      ∀ a ∈ l, (f a).isSome := by
  intro l
  induction l with
  | nil =>
    intro r _ a ha
    simp at ha
  | cons x rest ih =>
    intro r h a ha
    rw [List.mapM_cons] at h
    rcases hx : f x with _ | b <;> rw [hx] at h
    · simp at h
    · rcases hrest : rest.mapM f with _ | rs <;> rw [hrest] at h
      · simp at h
      · rcases List.mem_cons.mp ha with rfl | hmem
        · rw [hx]
          rfl
        · exact ih rs hrest a hmem

theorem pickGo_length (env : PickEnv) :
    ∀ (commits : List CommitInfo) (head : String) (acc : List FileChange)
      (k : Nat), (pickGo env commits head acc k).length = commits.length := by
  intro commits
  induction commits with
  | nil => intro head acc k; rfl
  | cons c rest ih =>
    intro head acc k
    simp only [pickGo, List.length_cons]
    rw [ih]

theorem pickGo_spec (env : PickEnv) (hsha : ∀ s, env.sha1hex s ≠ "") :
    ∀ (commits : List CommitInfo) (head : String) (acc : List FileChange)
      (k : Nat) (i : Nat) (step : OperationStep),
      (pickGo env commits head acc k)[i]? = some step →
      ∃ commit, commits[i]? = some commit ∧
        step.will_be_skipped = false ∧
        step.new_sha ≠ "" ∧
        step.step_number = k + i + 1 ∧
        step.conflicts = detectConflicts
          (acc ++ (commits.take i).flatMap (fun c => env.getCommitChanges c.sha))
          (env.getCommitChanges commit.sha) := by
  intro commits
  induction commits with
  | nil =>
    intro head acc k i step h
    simp [pickGo] at h
  | cons c rest ih =>
    intro head acc k i step h
    match i with
    | 0 =>
      simp only [pickGo, List.getElem?_cons_zero, Option.some.injEq] at h
      refine ⟨c, by simp, by rw [← h]; rfl, ?_, by rw [← h]; rfl, ?_⟩
      · rw [← h]
        exact hsha _
      · rw [← h]
        simp [simulatePick]
    | Nat.succ j =>
      simp only [pickGo, List.getElem?_cons_succ] at h
      obtain ⟨commit, hcom, h1, h2, h3, h4⟩ := ih _ _ (k + 1) j step h
      refine ⟨commit, by simpa using hcom, h1, h2, by omega, ?_⟩
      rw [h4]
      congr 1
      simp [List.take_succ_cons, List.append_assoc]

/-- C10.  Every cherry-pick step is non-skipped with a non-empty
synthesized hash; its conflicts are computed against the recent target
changes extended by the changes of every earlier pick (the buffer is
extended unconditionally: no patch-id duplicate skipping); and a picked
commit already present in the target history produces no validation error,
only an "already in target history" warning. -/
theorem cherry_pick_never_skips (env : PickEnv) (refs : List String)
    (target : String) (sim : CherryPickSimulation)
    (h : cherryPickSimulate env refs target = some sim)
    (hsha : ∀ s, env.sha1hex s ≠ "") :
    ∃ commits_to_pick target_commit,
      refs.mapM env.getCommit = some commits_to_pick ∧
      env.getCommit target = some target_commit ∧
      sim.commits_to_pick = commits_to_pick ∧
      sim.steps.length = commits_to_pick.length ∧
      (∀ i step, sim.steps[i]? = some step →
        ∃ commit, commits_to_pick[i]? = some commit ∧
          step.will_be_skipped = false ∧
          step.new_sha ≠ "" ∧
          step.conflicts = detectConflicts
            (getRecentChanges env target_commit.sha 10 ++
              (commits_to_pick.take i).flatMap
                (fun c => env.getCommitChanges c.sha))
            (env.getCommitChanges commit.sha)) ∧
      (cherryPickValidate env refs target).1 = [] ∧
      (∀ c ∈ commits_to_pick,
        c.sha ∈ (env.walkCommits [target] [] (some 1000)).map (fun x => x.sha) →
        ("Commit " ++ c.short_sha ++ " is already in target history") ∈
          (cherryPickValidate env refs target).2) := by
  unfold cherryPickSimulate at h
  rcases hm : refs.mapM env.getCommit with _ | commits_to_pick
  · rw [hm] at h
    simp at h
  rcases ht : env.getCommit target with _ | target_commit
  · rw [hm, ht] at h
    simp at h
  rw [hm, ht] at h
  simp only [Option.some.injEq] at h
  have hsteps : sim.steps = pickGo env commits_to_pick target_commit.sha
      (getRecentChanges env target_commit.sha 10) 0 := by
    rw [← h]
  have hall : ∀ ref ∈ refs, (env.getCommit ref).isSome :=
    mapM_eq_some_isSome env.getCommit refs commits_to_pick hm
  have herr : (refs.filterMap (fun ref =>
      if (env.getCommit ref).isNone then some ("Commit not found: " ++ ref)
      else none)) = [] := by
    rw [List.filterMap_eq_nil_iff]
    intro ref href
    have hs := hall ref href
    rcases henv : env.getCommit ref with _ | v
    · rw [henv] at hs
      simp at hs
    · simp [henv]
  have hval : cherryPickValidate env refs target =
      ([], (refs.filterMap env.getCommit).filterMap (fun c =>
          if c.sha ∈ (env.walkCommits [target] [] (some 1000)).map
              (fun x => x.sha) then
            some ("Commit " ++ c.short_sha ++ " is already in target history")
          else none) ++
        (refs.filterMap env.getCommit).filterMap (fun c =>
          if c.is_merge then
            some ("Commit " ++ c.short_sha ++
              " is a merge commit; cherry-pick may behave unexpectedly")
          else none)) := by
    unfold cherryPickValidate
    rw [ht]
    simp only [herr]
    rw [if_neg (by simp)]
  have hres : refs.filterMap env.getCommit = commits_to_pick :=
    mapM_eq_some_filterMap env.getCommit refs commits_to_pick hm
  refine ⟨commits_to_pick, target_commit, rfl, rfl, by rw [← h], ?_, ?_, ?_, ?_⟩
  · rw [hsteps, pickGo_length]
  · intro i step hstep
    rw [hsteps] at hstep
    obtain ⟨commit, hcom, h1, h2, _, h4⟩ := pickGo_spec env hsha commits_to_pick
      target_commit.sha (getRecentChanges env target_commit.sha 10) 0 i step hstep
    exact ⟨commit, hcom, h1, h2, h4⟩
  · rw [hval]
  · intro c hc hhist
    rw [hval]
    simp only
    rw [List.mem_append]
    left
    rw [List.mem_filterMap]
    refine ⟨c, by rw [hres]; exact hc, ?_⟩
    rw [if_pos hhist]

/-- C10 witness: at the concrete environment, validation reports no error
and emits the "already in target history" warning for the picked commit. -/
theorem cherry_pick_never_skips_witness :
    (cherryPickValidate pickEnvExample ["c1"] "t").1 = [] ∧
    ("Commit " ++ commitC1.short_sha ++ " is already in target history") ∈
      (cherryPickValidate pickEnvExample ["c1"] "t").2 := by
  obtain ⟨sim, hsim⟩ :
      ∃ sim, cherryPickSimulate pickEnvExample ["c1"] "t" = some sim := ⟨_, rfl⟩
  obtain ⟨ctp, tc, hm, ht, _, _, _, herr2, hwarn⟩ :=
    cherry_pick_never_skips pickEnvExample ["c1"] "t" sim hsim
      (fun s => by simp [pickEnvExample])
  refine ⟨herr2, ?_⟩
  have hctp : ctp = [commitC1] := by
    have h2 := hm
    rw [show (["c1"].mapM pickEnvExample.getCommit :
      Option (List CommitInfo)) = some [commitC1] from rfl] at h2
    exact (Option.some.inj h2).symm
  subst hctp
  apply hwarn commitC1 (by simp)
  simp [pickEnvExample, commitC1]

/-!
### C7: merge fast-forward behaviour
-/

theorem mem_dictInsert {α : Type} {l : List (String × α)} {k : String}
    {v : α} {e : String × α} (h : e ∈ dictInsert l k v) :
    e ∈ l ∨ e = (k, v) := by
  unfold dictInsert at h
  split at h
  · rw [List.mem_map] at h
    obtain ⟨x, hx, hfx⟩ := h
    by_cases hk : x.1 = k
    · rw [if_pos hk] at hfx
      exact Or.inr hfx.symm
    · rw [if_neg hk] at hfx
      exact Or.inl (hfx ▸ hx)
  · rw [List.mem_append] at h
    rcases h with h | h
    · exact Or.inl h
    · simp at h
      exact Or.inr h

theorem mem_dictInsert_of_mem_ne {α : Type} {l : List (String × α)}
    {k : String} {v : α} {e : String × α} (h1 : e ∈ l) (h2 : e.1 ≠ k) :
    e ∈ dictInsert l k v := by
  unfold dictInsert
  split
  · rw [List.mem_map]
    exact ⟨e, h1, by rw [if_neg h2]⟩
  · rw [List.mem_append]
    exact Or.inl h1

theorem mem_add_commit {g : CommitGraph} {c : CommitInfo}
    {e : String × CommitInfo} (h : e ∈ (g.add_commit c).commits) :
    e ∈ g.commits ∨ e.2 = c := by
  rcases mem_dictInsert h with h | h
  · exact Or.inl h
  · exact Or.inr (by rw [h])

theorem mem_foldl_add_commit (l : List CommitInfo) :
    ∀ (g : CommitGraph) (e : String × CommitInfo),
      e ∈ (l.foldl CommitGraph.add_commit g).commits →
      e ∈ g.commits ∨ e.2 ∈ l := by
  induction l with
  | nil =>
    intro g e h
    exact Or.inl h
  | cons c rest ih =>
    intro g e h
    rw [List.foldl_cons] at h
    rcases ih (g.add_commit c) e h with h2 | h2
    · rcases mem_add_commit h2 with h3 | h3
      · exact Or.inl h3
      · exact Or.inr (by rw [h3]; exact List.mem_cons_self c rest)
    · exact Or.inr (List.mem_cons_of_mem c h2)

theorem mem_add_commit_of_ne {g : CommitGraph} {c : CommitInfo}
    {e : String × CommitInfo} (h1 : e ∈ g.commits) (h2 : c.sha ≠ e.1) :
    e ∈ (g.add_commit c).commits :=
  mem_dictInsert_of_mem_ne h1 (fun hc => h2 hc.symm)

theorem mem_foldl_add_commit_of_ne (l : List CommitInfo) :
    ∀ (g : CommitGraph) (e : String × CommitInfo), e ∈ g.commits →
      (∀ c ∈ l, c.sha ≠ e.1) →
      e ∈ (l.foldl CommitGraph.add_commit g).commits := by
  induction l with
  | nil =>
    intro g e h _
    exact h
  | cons c rest ih =>
    intro g e h hne
    rw [List.foldl_cons]
    exact ih (g.add_commit c) e
      (mem_add_commit_of_ne h (hne c (List.mem_cons_self c rest)))
      (fun x hx => hne x (List.mem_cons_of_mem c hx))

/-- C7.  `is_fast_forward` holds exactly when the merge base equals the
target tip and `no_ff` is unset; a fast-forward merge synthesizes no merge
commit (every after-graph node comes from the repository walk) and the
after-graph tip is the source tip; a non-fast-forward merge synthesizes a
merge commit with parents `(target tip, source tip)` and timestamp
`target tip + 1`, which heads the after-graph. -/
theorem merge_fast_forward_spec (env : MergeEnv) (source target : String)
    (no_ff : Bool) (strategy : String) (sim : MergeSimulation)
    (h : mergeSimulate env source target no_ff strategy = some sim) :
    ∃ source_commit target_commit merge_base_sha,
      env.getCommit source = some source_commit ∧
      env.getCommit target = some target_commit ∧
      env.findMergeBase source target = some merge_base_sha ∧
      (sim.is_fast_forward = true ↔
        (merge_base_sha = target_commit.sha ∧ no_ff = false)) ∧
      (sim.is_fast_forward = true →
        sim.after_graph.head_sha = source_commit.sha ∧
        ∀ e ∈ sim.after_graph.commits,
          e.2 ∈ env.walkCommits [source_commit.sha] [] (some 20)) ∧
      (sim.is_fast_forward = false →
        (∀ c ∈ env.walkCommits [target_commit.sha] [] (some 15) ++
            env.walkCommits [source_commit.sha] [] (some 15),
          c.sha ≠ generateMergeCommitSha env source_commit.sha
            target_commit.sha) →
        sim.after_graph.head_sha =
          generateMergeCommitSha env source_commit.sha target_commit.sha ∧
        (generateMergeCommitSha env source_commit.sha target_commit.sha,
          mergeCommitInfo source target source_commit target_commit
            (generateMergeCommitSha env source_commit.sha target_commit.sha)) ∈
          sim.after_graph.commits) := by
  unfold mergeSimulate at h
  rcases hs : env.getCommit source with _ | source_commit
  · rw [hs] at h
    simp at h
  rcases ht : env.getCommit target with _ | target_commit
  · rw [hs, ht] at h
    simp at h
  rcases hb : env.findMergeBase source target with _ | merge_base_sha
  · rw [hs, ht, hb] at h
    simp at h
  rw [hs, ht, hb] at h
  simp only [Option.some.injEq] at h
  subst h
  refine ⟨source_commit, target_commit, merge_base_sha, rfl, rfl, rfl,
    ?_, ?_, ?_⟩
  · show (decide (merge_base_sha = target_commit.sha) && ! no_ff) = true ↔ _
    cases no_ff <;> simp
  · intro hff
    have hb2 : (decide (merge_base_sha = target_commit.sha) && ! no_ff)
        = true := hff
    simp only [mergeBuildAfterGraph, hb2, if_true]
    refine ⟨trivial, ?_⟩
    intro e he
    rcases mem_foldl_add_commit _ _ e he with h2 | h2
    · simp at h2
    · exact h2
  · intro hff hclash
    have hb2 : (decide (merge_base_sha = target_commit.sha) && ! no_ff)
        = false := hff
    simp only [mergeBuildAfterGraph, hb2, Bool.false_eq_true, if_false]
    refine ⟨trivial, ?_⟩
    have hstart : (generateMergeCommitSha env source_commit.sha target_commit.sha,
        mergeCommitInfo source target source_commit target_commit
          (generateMergeCommitSha env source_commit.sha target_commit.sha)) ∈
        (CommitGraph.add_commit {}
          (mergeCommitInfo source target source_commit target_commit
            (generateMergeCommitSha env source_commit.sha
              target_commit.sha))).commits := by
      simp [CommitGraph.add_commit, dictInsert, mergeCommitInfo]
    have hmid := mem_foldl_add_commit_of_ne
      (env.walkCommits [target_commit.sha] [] (some 15)) _ _ hstart
      (fun c hc => hclash c (List.mem_append.mpr (Or.inl hc)))
    exact mem_foldl_add_commit_of_ne
      (env.walkCommits [source_commit.sha] [] (some 15)) _ _ hmid
      (fun c hc => hclash c (List.mem_append.mpr (Or.inr hc)))

/-- C7 witness: the concrete fast-forward merge has `is_fast_forward` true
and its after-graph tip is the source tip. -/
theorem merge_fast_forward_spec_witness :
    ∃ sim, mergeSimulate mergeEnvExample "src" "tgt" false "ort" = some sim ∧
      sim.is_fast_forward = true ∧
      sim.after_graph.head_sha = commitC1.sha := by
  obtain ⟨sim, hsim⟩ :
      ∃ sim, mergeSimulate mergeEnvExample "src" "tgt" false "ort" = some sim :=
    ⟨_, rfl⟩
  obtain ⟨sc, tc, mb, h1, h2, h3, hiff, hff, _⟩ :=
    merge_fast_forward_spec mergeEnvExample "src" "tgt" false "ort" sim hsim
  have hsc : sc = commitC1 := by
    have := h1
    rw [show mergeEnvExample.getCommit "src" = some commitC1 from rfl] at this
    exact (Option.some.inj this).symm
  have htc : tc = commitT2 := by
    have := h2
    rw [show mergeEnvExample.getCommit "tgt" = some commitT2 from rfl] at this
    exact (Option.some.inj this).symm
  have hmb : mb = "t2" := by
    have := h3
    rw [show mergeEnvExample.findMergeBase "src" "tgt" = some "t2" from rfl] at this
    exact (Option.some.inj this).symm
  have hffv : sim.is_fast_forward = true :=
    hiff.mpr ⟨by simp [hmb, htc, commitT2], rfl⟩
  obtain ⟨hhead, _⟩ := hff hffv
  exact ⟨sim, hsim, hffv, by rw [hhead, hsc]⟩

/-!
### C4: patch-id normalization and root-commit separation
-/

theorem rstrip_eq_nil_iff (l : List Char) :
    rstrip l = [] ↔ isBlank l = true := by
  simp [rstrip, isBlank, List.dropWhile_eq_nil_iff]

theorem pfxOf_iff (p l : List Char) :
    pfxOf p l = true ↔ ∃ r, l = p ++ r := by
  constructor
  · intro h
    refine ⟨l.drop p.length, ?_⟩
    conv_lhs => rw [← List.take_append_drop p.length l]
    simp only [pfxOf, decide_eq_true_eq] at h
    rw [h]
  · rintro ⟨r, rfl⟩
    simp only [pfxOf, decide_eq_true_eq]
    exact List.take_left p r

theorem pfxOf_trans {p q l : List Char} (h1 : pfxOf p q = true)
    (h2 : pfxOf q l = true) : pfxOf p l = true := by
  rw [pfxOf_iff] at h1 h2 ⊢
  obtain ⟨r1, rfl⟩ := h1
  obtain ⟨r2, rfl⟩ := h2
  exact ⟨r1 ++ r2, by rw [List.append_assoc]⟩

theorem rstrip_append_nonspace (q r : List Char)
    (hq : ∀ c ∈ q, pyIsSpace c = false) :
    ∃ rr, rstrip (q ++ r) = q ++ rr := by
  unfold rstrip
  rw [List.reverse_append, List.dropWhile_append]
  by_cases he : (List.dropWhile pyIsSpace r.reverse).isEmpty = true
  · rw [if_pos he]
    have hqq : List.dropWhile pyIsSpace q.reverse = q.reverse := by
      cases hq2 : q.reverse with
      | nil => simp
      | cons a t =>
        rw [List.dropWhile_cons, if_neg]
        rw [hq a (by
          have : a ∈ q.reverse := by rw [hq2]; exact List.mem_cons_self a t
          exact List.mem_reverse.mp this)]
        simp
    rw [hqq, List.reverse_reverse]
    exact ⟨[], by rw [List.append_nil]⟩
  · rw [if_neg he, List.reverse_append, List.reverse_reverse]
    exact ⟨(List.dropWhile pyIsSpace r.reverse).reverse, rfl⟩

theorem rstrip_cons (c : Char) (l : List Char) :
    rstrip (c :: l) = [] ∨ ∃ t, rstrip (c :: l) = c :: t := by
  unfold rstrip
  rw [show (c :: l).reverse = l.reverse ++ [c] from by simp,
    List.dropWhile_append]
  by_cases he : (List.dropWhile pyIsSpace l.reverse).isEmpty = true
  · rw [if_pos he]
    by_cases hc : pyIsSpace c = true
    · left
      simp [List.dropWhile_cons, hc]
    · right
      refine ⟨[], ?_⟩
      simp [List.dropWhile_cons, hc]
  · rw [if_neg he]
    right
    exact ⟨(List.dropWhile pyIsSpace l.reverse).reverse, by simp⟩

theorem ne_sha_of_head {c : Char} {l2 sha : List Char} (hsha : shaOK sha)
    (hc : hexChar c = false) : c :: l2 ≠ sha := by
  intro he
  have := hsha.2 c (by rw [← he]; exact List.mem_cons_self c l2)
  rw [hc] at this
  exact Bool.false_ne_true this

theorem kept_ne_sha_of_prefix (q : List Char) {l sha : List Char}
    (hsha : shaOK sha) (hq1 : ∀ c ∈ q, pyIsSpace c = false) (j : Nat)
    (hj : j < q.length) (hnh : hexChar (q.get ⟨j, hj⟩) = false)
    (hp : pfxOf q l = true) :
    rstrip l ≠ sha := by
  obtain ⟨r, rfl⟩ := (pfxOf_iff q l).mp hp
  obtain ⟨rr, hrr⟩ := rstrip_append_nonspace q r hq1
  rw [hrr]
  intro he
  have hmem : q.get ⟨j, hj⟩ ∈ sha := by
    rw [← he]
    refine List.mem_append_left rr ?_
    simp only [List.get_eq_getElem]
    exact List.getElem_mem hj
  have hhex := hsha.2 _ hmem
  simp only [List.get_eq_getElem] at hnh
  simp [hnh] at hhex

theorem normalized_line_ne_sha {lines : List (List Char)} {k sha : List Char}
    (hk : k ∈ normalizeForPatchId lines) (hwf : ∀ l ∈ lines, diffLineWF l)
    (hsha : shaOK sha) : k ≠ sha := by
  rw [normalizeForPatchId, List.mem_filterMap] at hk
  obtain ⟨l, hl, hf⟩ := hk
  by_cases h1 : pfxOf "index ".toList l = true
  · rw [if_pos h1] at hf
    simp at hf
  rw [if_neg h1] at hf
  by_cases h2 : pfxOf "diff --git".toList l = true
  · rw [if_pos h2] at hf
    simp at hf
  rw [if_neg h2] at hf
  by_cases h3 : pfxOf "@@".toList l = true
  · rw [if_pos h3] at hf
    injection hf with hf
    intro he
    have hlen : ("@@".toList).length = sha.length := by rw [hf, he]
    rw [hsha.1] at hlen
    simp at hlen
  rw [if_neg h3] at hf
  by_cases h4 : isBlank l = true
  · rw [if_pos h4] at hf
    simp at hf
  rw [if_neg h4] at hf
  injection hf with hf
  rw [← hf]
  rcases hwf l hl with hw|hw|hw|hw|hw|hw|hw|hw|hw|hw|hw|hw|hw|hw|hw|hw|hw|hw|hw
  · exact absurd hw h4
  · exact kept_ne_sha_of_prefix ("+".toList) hsha (by decide) 0 (by decide)
      (by decide) hw
  · exact kept_ne_sha_of_prefix ("-".toList) hsha (by decide) 0 (by decide)
      (by decide) hw
  · obtain ⟨r, hr⟩ := (pfxOf_iff _ _).mp hw
    have hr2 : l = Char.ofNat 32 :: r := hr
    rw [hr2]
    rcases rstrip_cons (Char.ofNat 32) r with hrc | ⟨t, hrc⟩
    · exfalso
      have := (rstrip_eq_nil_iff _).mp hrc
      rw [← hr2] at this
      exact h4 this
    · rw [hrc]
      exact ne_sha_of_head hsha (by decide)
  · exact kept_ne_sha_of_prefix ("\\".toList) hsha (by decide) 0 (by decide)
      (by decide) hw
  · exact absurd hw h2
  · exact absurd hw h1
  · exact absurd hw h3
  · exact kept_ne_sha_of_prefix ("o".toList) hsha (by decide) 0 (by decide)
      (by decide) (pfxOf_trans (by decide) hw)
  · exact kept_ne_sha_of_prefix ("n".toList) hsha (by decide) 0 (by decide)
      (by decide) (pfxOf_trans (by decide) hw)
  · exact kept_ne_sha_of_prefix ("n".toList) hsha (by decide) 0 (by decide)
      (by decide) (pfxOf_trans (by decide) hw)
  · exact kept_ne_sha_of_prefix ("del".toList) hsha (by decide) 2 (by decide)
      (by decide) (pfxOf_trans (by decide) hw)
  · exact kept_ne_sha_of_prefix ("s".toList) hsha (by decide) 0 (by decide)
      (by decide) (pfxOf_trans (by decide) hw)
  · exact kept_ne_sha_of_prefix ("di".toList) hsha (by decide) 1 (by decide)
      (by decide) (pfxOf_trans (by decide) hw)
  · exact kept_ne_sha_of_prefix ("r".toList) hsha (by decide) 0 (by decide)
      (by decide) (pfxOf_trans (by decide) hw)
  · exact kept_ne_sha_of_prefix ("r".toList) hsha (by decide) 0 (by decide)
      (by decide) (pfxOf_trans (by decide) hw)
  · exact kept_ne_sha_of_prefix ("co".toList) hsha (by decide) 1 (by decide)
      (by decide) (pfxOf_trans (by decide) hw)
  · exact kept_ne_sha_of_prefix ("co".toList) hsha (by decide) 1 (by decide)
      (by decide) (pfxOf_trans (by decide) hw)
  · exact kept_ne_sha_of_prefix ("B".toList) hsha (by decide) 0 (by decide)
      (by decide) (pfxOf_trans (by decide) hw)

theorem normalizeForPatchId_eq_spec (lines : List (List Char)) :
    normalizeForPatchId lines = specNormalize lines := by
  induction lines with
  | nil => rfl
  | cons l rest ih =>
    by_cases h1 : pfxOf "index ".toList l = true
    · have h1x : pfxOf ['i', 'n', 'd', 'e', 'x', ' '] l = true := h1
      simpa [normalizeForPatchId, specNormalize, List.filterMap_cons,
        List.filter_cons, h1x] using ih
    have h1x : pfxOf ['i', 'n', 'd', 'e', 'x', ' '] l = false :=
      Bool.eq_false_iff.mpr h1
    by_cases h2 : pfxOf "diff --git".toList l = true
    · have h2x : pfxOf ['d', 'i', 'f', 'f', ' ', '-', '-', 'g', 'i', 't'] l
          = true := h2
      simpa [normalizeForPatchId, specNormalize, List.filterMap_cons,
        List.filter_cons, h1x, h2x] using ih
    have h2x : pfxOf ['d', 'i', 'f', 'f', ' ', '-', '-', 'g', 'i', 't'] l
        = false := Bool.eq_false_iff.mpr h2
    by_cases h3 : pfxOf "@@".toList l = true
    · have h3x : pfxOf ['@', '@'] l = true := h3
      simpa [normalizeForPatchId, specNormalize, List.filterMap_cons,
        List.filter_cons, h1x, h2x, h3x] using ih
    have h3x : pfxOf ['@', '@'] l = false := Bool.eq_false_iff.mpr h3
    by_cases h4 : isBlank l = true
    · have hnil : rstrip l = [] := (rstrip_eq_nil_iff l).mpr h4
      simpa [normalizeForPatchId, specNormalize, List.filterMap_cons,
        List.filter_cons, h1x, h2x, h3x, h4, hnil] using ih
    · have hnil : ¬ rstrip l = [] := fun hc => h4 ((rstrip_eq_nil_iff l).mp hc)
      simpa [normalizeForPatchId, specNormalize, List.filterMap_cons,
        List.filter_cons, h1x, h2x, h3x, h4, hnil] using ih

theorem joinLines_normalize_ne_sha {lines : List (List Char)}
    {sha : List Char} (hwf : ∀ l ∈ lines, diffLineWF l) (hsha : shaOK sha) :
    joinLines (normalizeForPatchId lines) ≠ sha := by
  rcases hN : normalizeForPatchId lines with _ | ⟨k, tail⟩
  · intro he
    have hlen := congrArg List.length he
    rw [hsha.1] at hlen
    simp [joinLines] at hlen
  · rcases tail with _ | ⟨k2, rest⟩
    · have hk : k ∈ normalizeForPatchId lines := by
        rw [hN]
        exact List.mem_cons_self k []
      have := normalized_line_ne_sha hk hwf hsha
      simpa [joinLines] using this
    · intro he
      have hmem : Char.ofNat 10 ∈ sha := by
        rw [← he]
        simp [joinLines]
      have := hsha.2 _ hmem
      exact absurd this (by decide)

/-- C4.  A root commit's patch-id is the hash of its own commit sha; any
other commit's patch-id is the hash of the diff normalized exactly as the
spec describes (drop `index `/`diff --git` lines, rewrite hunk headers to
`@@`, strip trailing whitespace, drop empty lines); and for an injective
hash, a root patch-id never equals the diff-derived patch-id of a commit
whose diff is well-formed unified-diff text. -/
theorem patch_id_spec (sha1hex : List Char → List Char)
    (hinj : Function.Injective sha1hex) :
    (∀ (sha : List Char) (dl : List (List Char)),
      computePatchId sha1hex 0 sha dl = sha1hex sha) ∧
    (∀ (n : Nat) (sha : List Char) (dl : List (List Char)), n ≠ 0 →
      computePatchId sha1hex n sha dl =
        sha1hex (joinLines (specNormalize dl))) ∧
    (∀ (n : Nat) (sha_r sha_d : List Char) (dl_r dl_d : List (List Char)),
      n ≠ 0 → shaOK sha_r → (∀ l ∈ dl_d, diffLineWF l) →
      computePatchId sha1hex 0 sha_r dl_r ≠
        computePatchId sha1hex n sha_d dl_d) := by
  refine ⟨fun sha dl => by simp [computePatchId], ?_, ?_⟩
  · intro n sha dl hn
    simp [computePatchId, hn, normalizeForPatchId_eq_spec]
  · intro n sha_r sha_d dl_r dl_d hn hsha hwf
    simp only [computePatchId, if_pos rfl]
    rw [if_neg hn]
    intro he
    exact (joinLines_normalize_ne_sha hwf hsha) (hinj he).symm

/-- C4 witness: with the identity as (injective) hash, a concrete root
patch-id differs from a concrete diff-derived patch-id. -/
theorem patch_id_spec_witness :
    computePatchId (fun l => l) 0 (List.replicate 40 (Char.ofNat 97)) [] ≠
      computePatchId (fun l => l) 1 "d1".toList wfDiffExample :=
  (patch_id_spec (fun l => l) (fun a b h => h)).2.2 1
    (List.replicate 40 (Char.ofNat 97)) ("d1".toList) [] wfDiffExample
    (by decide) (by decide) (by decide)

/-- C6 counterexample.  An ambiguous 7-hex prefix does not fail with a
distinct ambiguous-ref error: the error taxonomy of
`core/exceptions.py` has no such class, and `_resolve_ref` raises plain
`RefNotFoundError` — the same class raised for an unknown ref — with the
`is ambiguous` text passed as the constructor's `ref` argument (so the
rendered message is `Reference not found: aaaaaaa is ambiguous (2
matches)`). -/
theorem ambiguous_ref_counterexample :
    resolveRef ambigStore "aaaaaaa".toList =
      Except.error (RepoError.refNotFoundError
        "aaaaaaa is ambiguous (2 matches)".toList) ∧
    resolveRef ambigStore "nosuchref".toList =
      Except.error (RepoError.refNotFoundError "nosuchref".toList) := by
  constructor
  · rfl
  · rfl

/-- C6 (amended).  For every store and every ref of length at least 7
that is hexadecimal after lowercasing, does not directly name a commit
as a full 40-character sha, and whose lowercased form is a prefix of the
shas of at least two commit objects of the store, resolution fails with
`RefNotFoundError` (the same exception class as ref-not-found, there
being no distinct ambiguous-ref class) carrying the message
`{ref} is ambiguous ({n} matches)`, rather than resolving. -/
theorem ambiguous_ref_amended (st : RefStore) (ref : List Char)
    (h40 : (decide (ref.length = 40) && isCommitObj (getObj st ref)) = false)
    (h7 : 7 ≤ ref.length)
    (hhex : (ref.map lowerChar).all hexChar = true)
    (hamb : 2 ≤ (shortMatches st (ref.map lowerChar)).length) :
    resolveRef st ref =
      Except.error (RepoError.refNotFoundError
        (ambiguousMessage ref
          (shortMatches st (ref.map lowerChar)).length)) := by
  have h2 : (decide (7 ≤ ref.length) && (ref.map lowerChar).all hexChar)
      = true := by
    rw [hhex, Bool.and_true, decide_eq_true_eq]
    exact h7
  rcases hms : shortMatches st (ref.map lowerChar) with _ | ⟨m1, tl⟩
  · rw [hms] at hamb
    simp at hamb
  rcases tl with _ | ⟨m2, rest⟩
  · rw [hms] at hamb
    simp at hamb
  simp only [resolveRef, h40, h2, hms, Bool.false_eq_true, if_false,
    if_true]

/-- C6 witness: the amended theorem applied to the two-commit store with
the shared prefix `aaaaaaa`. -/
theorem ambiguous_ref_amended_witness :
    resolveRef ambigStore "aaaaaaa".toList =
      Except.error (RepoError.refNotFoundError
        (ambiguousMessage "aaaaaaa".toList
          (shortMatches ambigStore
            ("aaaaaaa".toList.map lowerChar)).length)) :=
  ambiguous_ref_amended ambigStore ("aaaaaaa".toList) (by decide)
    (by decide) (by decide) (by decide)

end GitSim
